import Mathlib

/-!
Verification of the identifier and slug codec of the `twag` URL-redirection
service (sources `src/main.rs` and `src/models.rs`).

Strings are embedded as `List Char`; Rust's `str::len` (a UTF-8 byte count) is
embedded as `utf8Len`, and Rust byte-range slicing — which panics off a
character boundary — as the `Option`-valued `byteDrop`.  A function that can
panic in Rust is embedded with result type `Option (...)`, `none` standing for
the panic.  Behaviour of dependency crates (`url`, `uuid`) that the source
calls is embedded where needed: the `url` crate's parse result is passed in as
an explicit `Option UrlView` oracle argument, and `uuid::Uuid::try_parse` is
modelled for the simple and hyphenated formats that this program exercises.
-/

namespace Twag

/-! ## Character and byte-level basics -/

/-- Total UTF-8 byte length of a string, as Rust's `str::len` counts it. -/
def utf8Len (s : List Char) : Nat := (s.map Char.utf8Size).sum

/-- Models Rust `char::is_ascii_hexdigit`: `0-9`, `A-F` or `a-f`, by ASCII code
(48–57, 65–70, 97–102). -/
def isHexDigit (c : Char) : Bool :=
  decide ((48 ≤ c.toNat ∧ c.toNat ≤ 57) ∨ (65 ≤ c.toNat ∧ c.toNat ≤ 70) ∨
    (97 ≤ c.toNat ∧ c.toNat ≤ 102))

/-- An uppercase hex digit `0-9` or `A-F`, the character class `[0-9A-F]` of the
slug regex in `main.rs` line 304. -/
def isUpperHexDigit (c : Char) : Bool :=
  decide ((48 ≤ c.toNat ∧ c.toNat ≤ 57) ∨ (65 ≤ c.toNat ∧ c.toNat ≤ 70))

/-- Models Rust `str::to_uppercase` on a single character.  This is exact for
ASCII; the program only applies `to_uppercase` to strings already validated to
be ASCII hex digits, where the Unicode and ASCII mappings agree. -/
def asciiToUpper (c : Char) : Char :=
  if 97 ≤ c.toNat ∧ c.toNat ≤ 122 then Char.ofNat (c.toNat - 32) else c

/-- Models Rust `str::to_lowercase` on a single character (exact for ASCII, see
`asciiToUpper`). -/
def asciiToLower (c : Char) : Char :=
  if 65 ≤ c.toNat ∧ c.toNat ≤ 90 then Char.ofNat (c.toNat + 32) else c

/-- Hex digit value of a character, as `char::to_digit(16)` computes it for the
hex digits (only applied to characters accepted by `isHexDigit`). -/
def hexVal (c : Char) : Nat :=
  if c.toNat ≤ 57 then c.toNat - 48
  else if c.toNat ≤ 70 then c.toNat - 55
  else c.toNat - 87

/-- Uppercase hex digit for a value below 16, as Rust's `{:X}` formatting
renders one digit. -/
def hexDigitUpper (d : Nat) : Char :=
  if d < 10 then Char.ofNat (48 + d) else Char.ofNat (55 + d)

/-- Models Rust byte slicing `&s[i..]`: drop the first `i` BYTES of `s`.
`none` models the Rust panic raised when `i` is not a character boundary
(or lies beyond the end). -/
def byteDrop : List Char → Nat → Option (List Char)
  | s, 0 => some s
  | [], _ + 1 => none
  | c :: rest, i + 1 =>
    if c.utf8Size ≤ i + 1 then byteDrop rest (i + 1 - c.utf8Size) else none

/-! ## `Hex14` (`models.rs` lines 9–95) -/

/-- The error type `Hex14Error` of `models.rs` lines 14–20. -/
inductive Hex14Error
  | invalidLength (got : Nat)
  | invalidCharacter (c : Char)
  deriving DecidableEq

/-- `Hex14::new` (`models.rs` lines 23–34): reject unless the byte length is
exactly 14; reject on a non-hex character, reporting the first one (the source
tests `chars().any(..)` and then reports `chars().find(..).unwrap()`, which is
the single `find?` match below); otherwise store the uppercased string. -/
def Hex14.new (s : List Char) : Except Hex14Error (List Char) :=
  if utf8Len s ≠ 14 then .error (.invalidLength (utf8Len s))
  else
    match s.find? (fun c => !(isHexDigit c)) with
    | some c => .error (.invalidCharacter c)
    | none => .ok (s.map asciiToUpper)

/-- The comparison `PartialEq<String> for Hex14` (`models.rs` line 73): the
stored canonical value is compared against the comparand's literal characters,
with no case normalisation of the comparand. -/
def Hex14.eqString (stored : List Char) (other : List Char) : Bool :=
  stored == other

/-- The value stored by a constructed `Hex14`: exactly 14 characters, each an
uppercase hex digit. -/
def Hex14.Valid (v : List Char) : Prop :=
  v.length = 14 ∧ v.all isUpperHexDigit = true

instance (v : List Char) : Decidable (Hex14.Valid v) := by
  unfold Hex14.Valid; infer_instance

/-! ## Slug codec (`main.rs` lines 300–342) -/

/-- The anchored slug regex `^([0-9A-F]{14})(?:x([0-9A-F]{6}))?$` of `main.rs`
line 304, as a fixed-width scan.  Returns the two capture groups; as with
`regex_captures!`, an absent optional group is returned as the empty string. -/
def slugMatch (s : List Char) : Option (List Char × List Char) :=
  let idPart := s.take 14
  let rest := s.drop 14
  if idPart.length = 14 ∧ idPart.all isUpperHexDigit = true then
    match rest with
    | [] => some (idPart, [])
    | 'x' :: t =>
      if t.length = 6 ∧ t.all isUpperHexDigit = true then some (idPart, t) else none
    | _ => none
  else none

/-- Hex numeral parse used by `i32::from_str_radix(s, 16)` (`main.rs` line
316), modelled for sign-free inputs — the call site only ever passes strings
matched by `[0-9A-F]{6}`.  Empty or non-hex input and values beyond `i32::MAX`
are errors (`none`). -/
def fromStrRadix16 (s : List Char) : Option Nat :=
  if s ≠ [] ∧ s.all isHexDigit = true then
    let v := s.foldl (fun a c => 16 * a + hexVal c) 0
    if v ≤ 2147483647 then some v else none
  else none

/-- The numeric value of a hex digit string, most significant digit first (the
accumulator loop of `fromStrRadix16`). -/
def hexParse (s : List Char) : Nat :=
  s.foldl (fun a c => 16 * a + hexVal c) 0

/-- Slug decoding as performed by `get_tag_by_id` (`main.rs` lines 304–316):
regex match, `Hex14` conversion of the first group (a failure of either is the
handler's bad-request case, `none` here), and optional tap-count parse — an
empty second group yields the unset value, and a failed numeral parse is
silently dropped by `.and_then(|s| ... .ok())`. -/
def decodeSlug (param : List Char) : Option (List Char × Option Nat) :=
  match slugMatch param with
  | none => none
  | some (idStr, tapStr) =>
    match Hex14.new idStr with
    | .error _ => none
    | .ok id => some (id, if tapStr.isEmpty then none else fromStrRadix16 tapStr)

/-- Uppercase hex digits of `n`, most significant first, as Rust's `{:X}`
renders them. -/
def natToHexUpper (n : Nat) : List Char :=
  if _h : n < 16 then [hexDigitUpper n]
  else natToHexUpper (n / 16) ++ [hexDigitUpper (n % 16)]
decreasing_by exact Nat.div_lt_self (by omega) (by omega)

/-- Rust's `{:06X}` format: uppercase hex, zero-padded on the left to at least
six digits (`main.rs` line 334, `create_tag_page` line 249). -/
def fmtHex06 (n : Nat) : List Char :=
  let ds := natToHexUpper n
  List.replicate (6 - ds.length) '0' ++ ds

/-- The creation redirect target built at `main.rs` lines 333–335:
`/tag/create?id=<id>` with `&tap_count=<{:06X}>` appended exactly when a tap
count was decoded. -/
def createUrl (id : List Char) (tap : Option Nat) : List Char :=
  match tap with
  | some t => ("/tag/create?id=").toList ++ id ++ ("&tap_count=").toList ++ fmtHex06 t
  | none => ("/tag/create?id=").toList ++ id

/-- Responses the `get_tag_by_id` handler can produce on the modelled path
(database acquire/query failures are outside the model: the store oracle below
is total). -/
inductive HandlerResult
  | badRequest
  | permanentRedirect (url : List Char)
  | temporaryRedirect (location : List Char)
  deriving DecidableEq

/-- The handler `get_tag_by_id` (`main.rs` lines 300–342) over a store oracle
mapping a `Hex14` key to the stored target URL (`fetch_optional` of the
`twag_tags` row).  Malformed slugs are rejected before the store is consulted;
a found tag yields a permanent redirect to its target; a missing tag yields a
temporary redirect to the creation URL. -/
def get_tag_by_id (store : List Char → Option (List Char)) (param : List Char) :
    HandlerResult :=
  match slugMatch param with
  | none => .badRequest
  | some (idStr, tapStr) =>
    match Hex14.new idStr with
    | .error _ => .badRequest
    | .ok id =>
      let tapCount := if tapStr.isEmpty then none else fromStrRadix16 tapStr
      match store id with
      | none =>
        .temporaryRedirect
          (match tapCount with
           | some t =>
             ("/tag/create?id=").toList ++ id ++ ("&tap_count=").toList ++ fmtHex06 t
           | none => ("/tag/create?id=").toList ++ id)
      | some tag => .permanentRedirect tag

/-- The tap count used by `create_tag` (`main.rs` line 265):
`form.tap_count.or(param.tap_count).unwrap_or(1)` — the form body's value, else
the query string's, else the default 1. -/
def create_tag_tap_count (formTap queryTap : Option Nat) : Nat :=
  match formTap with
  | some t => t
  | none =>
    match queryTap with
    | some t => t
    | none => 1

/-- Modelled from the spec: the slug encoding.  The repository contains no
explicit encoder — slugs are minted outside the service — so `encode` follows
the spec's words: the identifier's 14 uppercase hex digits, followed by `x` and
the tap count zero-padded to exactly six uppercase hex digits exactly when a
tap count is present.  (The creation-redirect formatter at `main.rs` line 334
uses the same `{:06X}` rendering.) -/
def encodeSlug (id : List Char) (tap : Option Nat) : List Char :=
  id ++ (match tap with
         | some t => 'x' :: fmtHex06 t
         | none => [])

/-- The slug grammar `^[0-9A-F]{14}(x[0-9A-F]{6})?$` as the spec states it
(spec §6), written independently of `slugMatch` for comparison. -/
def SlugGrammar (s : List Char) : Prop :=
  (s.length = 14 ∧ s.all isUpperHexDigit = true) ∨
  (∃ a b, s = a ++ 'x' :: b ∧ a.length = 14 ∧ a.all isUpperHexDigit = true ∧
    b.length = 6 ∧ b.all isUpperHexDigit = true)

/-! ## `NotionPageId` (`models.rs` lines 97–260) -/

/-- The error type `NotionPageIdError` of `models.rs` lines 101–109. -/
inductive NotionPageIdError
  | invalidFormat (input : List Char)
  | missingPageId (input : List Char)
  | invalidId (input : List Char)
  deriving DecidableEq

/-- Hyphenation into the 8-4-4-4-12 UUID grouping, as the `format!` at
`models.rs` lines 182–189 slices `[0..8] [8..12] [12..16] [16..20] [20..32]`
(byte slices; only applied to 32 ASCII hex characters, where byte and
character indices coincide). -/
def hyphenate (s : List Char) : List Char :=
  s.take 8 ++ '-' :: ((s.drop 8).take 4 ++ '-' :: ((s.drop 12).take 4 ++
    '-' :: ((s.drop 16).take 4 ++ '-' :: (s.drop 20).take 12)))

/-- Structure check of the hyphenated UUID format 8-4-4-4-12: on success
returns the 32 hex digits with the four hyphens removed (the digits of the
parsed value, before lowercasing). -/
def splitUuid (s : List Char) : Option (List Char) :=
  let a := s.take 8
  if a.length = 8 ∧ a.all isHexDigit = true then
    match s.drop 8 with
    | '-' :: t1 =>
      let b := t1.take 4
      if b.length = 4 ∧ b.all isHexDigit = true then
        match t1.drop 4 with
        | '-' :: t2 =>
          let c := t2.take 4
          if c.length = 4 ∧ c.all isHexDigit = true then
            match t2.drop 4 with
            | '-' :: t3 =>
              let d := t3.take 4
              if d.length = 4 ∧ d.all isHexDigit = true then
                match t3.drop 4 with
                | '-' :: e =>
                  if e.length = 12 ∧ e.all isHexDigit = true then
                    some (a ++ b ++ c ++ d ++ e)
                  else none
                | _ => none
              else none
            | _ => none
          else none
        | _ => none
      else none
    | _ => none
  else none

/-- The brace test of `uuid::Uuid::try_parse`'s 38-byte arm
`[b'{', s @ .., b'}']`: the input must start with `{` and end with `}`; the
middle is handed to the hyphenated parse.  (`{` and `}` are one-byte ASCII, so
the byte-pattern and character-level views agree.) -/
def unbrace (s : List Char) : Option (List Char) :=
  match s with
  | '{' :: t => if t.getLast? = some '}' then some t.dropLast else none
  | _ => none

/-- The prefix test of `uuid::Uuid::try_parse`'s 45-byte arm
`[b'u', b'r', b'n', b':', b'u', b'u', b'i', b'd', b':', s @ ..]`: the input
must start with the literal `urn:uuid:`; the rest is handed to the hyphenated
parse. -/
def stripUrn (s : List Char) : Option (List Char) :=
  if s.take 9 = ("urn:uuid:").toList then some (s.drop 9) else none

/-- Models `uuid::Uuid::try_parse` of the `uuid` dependency crate, which
dispatches on the byte length: the simple form (32 bytes of hex, either case),
the hyphenated 8-4-4-4-12 form (36 bytes), the braced form (38 bytes between
`\x7b` and `\x7d`), and the URN form (45 bytes after `urn:uuid:`); anything
else is an error.  The parsed UUID value is represented by its 32 lowercase
hex digits. -/
def Uuid.tryParse (s : List Char) : Option (List Char) :=
  if utf8Len s = 32 ∧ s.all isHexDigit = true then some (s.map asciiToLower)
  else if utf8Len s = 36 then (splitUuid s).map (fun r => r.map asciiToLower)
  else if utf8Len s = 38 then
    match unbrace s with
    | some mid => (splitUuid mid).map (fun r => r.map asciiToLower)
    | none => none
  else if utf8Len s = 45 then
    match stripUrn s with
    | some rest => (splitUuid rest).map (fun r => r.map asciiToLower)
    | none => none
  else none

/-- `NotionPageId::try_parse_as_uuid` (`models.rs` lines 178–195): a
32-byte all-hex input is first reformatted into the hyphenated form, then
handed to `Uuid::try_parse`. -/
def NotionPageId.try_parse_as_uuid (input : List Char) : Option (List Char) :=
  let input2 :=
    if utf8Len input = 32 ∧ input.all isHexDigit = true then hyphenate input else input
  Uuid.tryParse input2

/-- `NotionPageId::extract_id_from_segment` (`models.rs` lines 156–176).
The outer `none` models the Rust panic: `&cleaned[cleaned.len() - 32..]` at
line 166 slices by byte index and panics when that index is not a character
boundary of `cleaned`. -/
def NotionPageId.extract_id_from_segment (segment : List Char) :
    Option (Except NotionPageIdError (List Char)) :=
  match NotionPageId.try_parse_as_uuid segment with
  | some uuid => some (.ok uuid)
  | none =>
    let cleaned := segment.filter (fun c => c ≠ '-')
    if utf8Len cleaned > 32 then
      match byteDrop cleaned (utf8Len cleaned - 32) with
      | none => none
      | some suffix =>
        match NotionPageId.try_parse_as_uuid suffix with
        | some uuid => some (.ok uuid)
        | none => some (.error (.invalidId segment))
    else some (.error (.invalidId segment))

/-- The outcome of `Url::parse(input)` relevant to
`parse_page_id_from_possible_url`: `host` is `some d` when `url.host()` is
`Some(Host::Domain(d))` (an IP host or no host is `none`), and `lastSegment`
is `url.path_segments().and_then(|mut s| s.next_back())`.  The `url` crate is a
dependency; its parse result for a given input is passed to the embedded
functions as an explicit `Option UrlView` argument (`none` when `Url::parse`
fails, e.g. on any scheme-less bare identifier). -/
structure UrlView where
  host : Option String
  lastSegment : Option (List Char)

/-- `NotionPageId::parse_page_id_from_possible_url` (`models.rs` lines
122–154): a parsed URL must have host exactly `www.notion.so`, else
`InvalidFormat`; its last path segment, required non-empty, is handed to
`extract_id_from_segment`; a non-URL input is handed over whole. -/
def NotionPageId.parse_page_id_from_possible_url (url : Option UrlView)
    (input : List Char) : Option (Except NotionPageIdError (List Char)) :=
  match url with
  | some u =>
    if u.host = some "www.notion.so" then
      match u.lastSegment with
      | some seg =>
        if seg.isEmpty then some (.error (.missingPageId input))
        else NotionPageId.extract_id_from_segment seg
      | none => some (.error (.missingPageId input))
    else some (.error (.invalidFormat input))
  | none => NotionPageId.extract_id_from_segment input

/-- `NotionPageId::format_as_uuid` (`models.rs` lines 197–207): require 32
bytes, re-parse through `try_parse_as_uuid`, and render
`uuid.hyphenated().to_string().to_lowercase()`. -/
def NotionPageId.format_as_uuid (id : List Char) :
    Except NotionPageIdError (List Char) :=
  if utf8Len id ≠ 32 then .error (.invalidId id)
  else
    match NotionPageId.try_parse_as_uuid id with
    | none => .error (.invalidId id)
    | some uuid => .ok ((hyphenate uuid).map asciiToLower)

/-- `NotionPageId::new` (`models.rs` lines 113–120): extract the raw page id,
then format it as the canonical lowercase hyphenated UUID string.  The outer
`none` models a panic (see `extract_id_from_segment`). -/
def NotionPageId.new (url : Option UrlView) (input : List Char) :
    Option (Except NotionPageIdError (List Char)) :=
  match NotionPageId.parse_page_id_from_possible_url url input with
  | none => none
  | some (.error e) => some (.error e)
  | some (.ok pageId) =>
    match NotionPageId.format_as_uuid pageId with
    | .error e => some (.error e)
    | .ok formatted => some (.ok formatted)

/-- `NotionPageId::as_raw` (`models.rs` line 211): the stored canonical value
with the hyphens stripped (`replace('-', "")`). -/
def NotionPageId.asRaw (canonical : List Char) : List Char :=
  canonical.filter (fun c => c ≠ '-')

/-- The canonical rendering the spec promises for an extracted 32-hex-digit
identifier `r`: lowercase, hyphen-grouped 8-4-4-4-12. -/
def canonicalOf (r : List Char) : List Char :=
  hyphenate (r.map asciiToLower)

/-- The hyphenated UUID shape 8-4-4-4-12 (either case), together with the
32 hex digits `r` it carries. -/
def HyphShapeOf (s r : List Char) : Prop :=
  ∃ a b c d e : List Char, s = a ++ '-' :: (b ++ '-' :: (c ++ '-' :: (d ++ '-' :: e))) ∧
    r = a ++ b ++ c ++ d ++ e ∧
    a.length = 8 ∧ b.length = 4 ∧ c.length = 4 ∧ d.length = 4 ∧ e.length = 12 ∧
    a.all isHexDigit = true ∧ b.all isHexDigit = true ∧ c.all isHexDigit = true ∧
    d.all isHexDigit = true ∧ e.all isHexDigit = true

/-- A braced GUID: `\x7b` + a hyphenated UUID + `\x7d`, carrying the digits
`r` (the 38-byte format of the uuid dependency's parser). -/
def BracedShapeOf (s r : List Char) : Prop :=
  ∃ core, s = '{' :: (core ++ ['}']) ∧ HyphShapeOf core r

/-- A URN-form UUID: the literal `urn:uuid:` followed by a hyphenated UUID,
carrying the digits `r` (the 45-byte format of the uuid dependency's
parser). -/
def UrnShapeOf (s r : List Char) : Prop :=
  ∃ core, s = ("urn:uuid:").toList ++ core ∧ HyphShapeOf core r

/-- The shapes `uuid::Uuid::try_parse` accepts directly (spec §4.2 step 3a as
the dependency implements it): simple 32-hex, hyphenated, braced, or URN. -/
def DirectUuidShape (s : List Char) : Prop :=
  (s.length = 32 ∧ s.all isHexDigit = true) ∨ (∃ r, HyphShapeOf s r) ∨
    (∃ r, BracedShapeOf s r) ∨ (∃ r, UrnShapeOf s r)

/-- The accepted candidate-segment shapes of spec §4.2 step 3 and the claims:
the segment is a bare 32-hex-character identifier, is a hyphenated
8-4-4-4-12 UUID of either case, or its hyphen-stripped form ends with a
32-hex-character identifier preceded by a non-empty rest (the
"title-slug-id" convention — the id itself may be hyphen-interspersed in the
raw segment).  `r` is the identifier the segment carries. -/
inductive SegYields : List Char → List Char → Prop
  | bare (r : List Char) : r.length = 32 → r.all isHexDigit = true → SegYields r r
  | hyphenated (a b c d e : List Char) :
      a.length = 8 → b.length = 4 → c.length = 4 → d.length = 4 → e.length = 12 →
      a.all isHexDigit = true → b.all isHexDigit = true → c.all isHexDigit = true →
      d.all isHexDigit = true → e.all isHexDigit = true →
      SegYields (a ++ '-' :: (b ++ '-' :: (c ++ '-' :: (d ++ '-' :: e))))
        (a ++ b ++ c ++ d ++ e)
  | suffixed (seg t2 r : List Char) :
      seg.filter (fun c => c ≠ '-') = t2 ++ r → t2 ≠ [] →
      r.length = 32 → r.all isHexDigit = true →
      SegYields seg r

/-- The spec's description of when a 32-hex identifier can be extracted from a
candidate input (spec §4.2 step 3, claim C5): directly — the input is one of
the UUID shapes the dependency parser accepts — or as the 32-character suffix
of the hyphen-stripped input. -/
def ExtractableSpec (s : List Char) : Prop :=
  DirectUuidShape s ∨
  ((s.filter (fun c => c ≠ '-')).length > 32 ∧
    ((s.filter (fun c => c ≠ '-')).drop ((s.filter (fun c => c ≠ '-')).length - 32)).all
      isHexDigit = true)

/-! ## Relation validator (`main.rs` lines 37–93) -/

/-- The slice of `notion_client`'s `DatabaseProperty` the validator inspects:
a relation property carries the configured target database id — optional in
the client's type — and every non-relation property kind is `other`. -/
inductive DatabaseProperty
  | relation (databaseId : Option (List Char))
  | other
  deriving DecidableEq

/-- A retrieved database schema: its property map, as name/property pairs
(`schema.properties.get(name)` is `List.lookup`). -/
def Schema := List (String × DatabaseProperty)

/-- The failures of `validate_database_relation`, one constructor per
`format!` site (`main.rs` lines 51, 58–61, 67–70, 76), carrying exactly the
data each message names. -/
inductive RelationErr
  | retrieveFailed (databaseId : List Char)
  | missingField (name : String)
  | wrongFieldType (name : String)
  | wrongTarget (name : String) (expected actual : List Char)
  deriving DecidableEq

/-- `validate_database_relation` (`main.rs` lines 37–80) over the retrieval
result (`retrieved = none` when `retrieve_a_database` failed).  The outer
`none` models the panic of `relation.database_id.as_ref().unwrap()` at line 55
when a relation property carries no target id. -/
def validate_database_relation (retrieved : Option Schema) (databaseId : List Char)
    (propertyName : String) (expectedTargetDb : List Char) :
    Option (Except RelationErr Unit) :=
  match retrieved with
  | none => some (.error (.retrieveFailed databaseId))
  | some schema =>
    match List.lookup propertyName schema with
    | none => some (.error (.missingField propertyName))
    | some (.relation dbid) =>
      match dbid with
      | none => none
      | some actual =>
        if actual ≠ expectedTargetDb then
          some (.error (.wrongTarget propertyName expectedTargetDb actual))
        else some (.ok ())
    | some .other => some (.error (.wrongFieldType propertyName))

/-- `validate_notion_databases` (`main.rs` lines 82–93): validate the
things-side relation toward the containers collection, and only if that
succeeds, the symmetric containers-side relation toward the things
collection (`?` short-circuits). -/
def validate_notion_databases (retrievedThings retrievedContainers : Option Schema)
    (thingsDb containersDb : List Char) (thingsColumn containersColumn : String) :
    Option (Except RelationErr Unit) :=
  match validate_database_relation retrievedThings thingsDb thingsColumn containersDb with
  | none => none
  | some (.error e) => some (.error e)
  | some (.ok _) =>
    validate_database_relation retrievedContainers containersDb containersColumn thingsDb

/-! ## Character-level lemmas -/

theorem uint32_le_of_toNat_le {a b : UInt32} (h : a.toNat ≤ b.toNat) : a ≤ b := by
  rw [UInt32.le_def, BitVec.le_def]
  exact h

theorem char_toNat_ofNat {n : Nat} (h : n < 55296) : (Char.ofNat n).toNat = n := by
  have hv : n.isValidChar := Or.inl h
  simp [Char.ofNat, hv, Char.toNat, Char.ofNatAux]
  rfl

theorem char_eq_of_toNat_eq {c d : Char} (h : c.toNat = d.toNat) : c = d := by
  have hc := Char.ofNat_toNat c
  have hd := Char.ofNat_toNat d
  rw [← hc, ← hd, h]

theorem char_utf8Size_one {c : Char} (h : c.toNat ≤ 127) : c.utf8Size = 1 := by
  unfold Char.utf8Size
  have hv : c.val ≤ UInt32.ofNatCore 127 Char.utf8Size.proof_1 :=
    uint32_le_of_toNat_le h
  simp only [hv, if_pos]

theorem isHexDigit_iff {c : Char} :
    isHexDigit c = true ↔ (48 ≤ c.toNat ∧ c.toNat ≤ 57) ∨ (65 ≤ c.toNat ∧ c.toNat ≤ 70) ∨
      (97 ≤ c.toNat ∧ c.toNat ≤ 102) := by
  simp [isHexDigit]

theorem isUpperHexDigit_iff {c : Char} :
    isUpperHexDigit c = true ↔ (48 ≤ c.toNat ∧ c.toNat ≤ 57) ∨ (65 ≤ c.toNat ∧ c.toNat ≤ 70) := by
  simp [isUpperHexDigit]

theorem isHexDigit_of_upper {c : Char} (h : isUpperHexDigit c = true) : isHexDigit c = true := by
  rw [isUpperHexDigit_iff] at h
  rw [isHexDigit_iff]
  tauto

theorem utf8Size_of_hexDigit {c : Char} (h : isHexDigit c = true) : c.utf8Size = 1 := by
  rw [isHexDigit_iff] at h
  exact char_utf8Size_one (by omega)

theorem hexDigit_ne_hyphen {c : Char} (h : isHexDigit c = true) : c ≠ '-' := by
  intro e
  subst e
  exact absurd h (by decide)

theorem asciiToUpper_upperHex {c : Char} (h : isUpperHexDigit c = true) : asciiToUpper c = c := by
  rw [isUpperHexDigit_iff] at h
  unfold asciiToUpper
  rw [if_neg (by omega)]

theorem asciiToUpper_hex {c : Char} (h : isHexDigit c = true) :
    isUpperHexDigit (asciiToUpper c) = true := by
  rw [isHexDigit_iff] at h
  unfold asciiToUpper
  rcases h with h | h | h
  · rw [if_neg (by omega), isUpperHexDigit_iff]
    omega
  · rw [if_neg (by omega), isUpperHexDigit_iff]
    omega
  · rw [if_pos (by omega), isUpperHexDigit_iff, char_toNat_ofNat (by omega)]
    omega

theorem asciiToLower_hex {c : Char} (h : isHexDigit c = true) :
    isHexDigit (asciiToLower c) = true := by
  rw [isHexDigit_iff] at h
  unfold asciiToLower
  by_cases hc : 65 ≤ c.toNat ∧ c.toNat ≤ 90
  · rw [if_pos hc, isHexDigit_iff, char_toNat_ofNat (by omega)]
    omega
  · rw [if_neg hc, isHexDigit_iff]
    omega

theorem asciiToLower_idem (c : Char) : asciiToLower (asciiToLower c) = asciiToLower c := by
  unfold asciiToLower
  by_cases h : 65 ≤ c.toNat ∧ c.toNat ≤ 90
  · rw [if_pos h, if_neg]
    rw [char_toNat_ofNat (by omega)]
    omega
  · rw [if_neg h, if_neg h]

/-! ## UTF-8 length and byte-slicing lemmas -/

theorem utf8Len_nil : utf8Len [] = 0 := rfl

theorem utf8Len_cons (c : Char) (s : List Char) :
    utf8Len (c :: s) = c.utf8Size + utf8Len s := by
  simp [utf8Len]

theorem utf8Len_append (a b : List Char) : utf8Len (a ++ b) = utf8Len a + utf8Len b := by
  simp [utf8Len]

theorem utf8Len_eq_zero_iff {s : List Char} : utf8Len s = 0 ↔ s = [] := by
  cases s with
  | nil => simp [utf8Len]
  | cons c t =>
    simp only [utf8Len_cons]
    have := Char.utf8Size_pos c
    constructor
    · intro h
      omega
    · intro h
      exact absurd h (by simp)

theorem utf8Len_of_hex {s : List Char} (h : s.all isHexDigit = true) :
    utf8Len s = s.length := by
  induction s with
  | nil => rfl
  | cons c t ih =>
    rw [List.all_cons, Bool.and_eq_true] at h
    rw [utf8Len_cons, utf8Size_of_hexDigit h.1, ih h.2, List.length_cons]
    omega

theorem all_upper_imp_hex {s : List Char} (h : s.all isUpperHexDigit = true) :
    s.all isHexDigit = true := by
  rw [List.all_eq_true] at h ⊢
  intro c hc
  exact isHexDigit_of_upper (h c hc)

theorem utf8Len_of_upperHex {s : List Char} (h : s.all isUpperHexDigit = true) :
    utf8Len s = s.length :=
  utf8Len_of_hex (all_upper_imp_hex h)

theorem byteDrop_zero (s : List Char) : byteDrop s 0 = some s := by
  cases s <;> rfl

theorem byteDrop_append (x y : List Char) : byteDrop (x ++ y) (utf8Len x) = some y := by
  induction x with
  | nil => simpa [utf8Len_nil] using byteDrop_zero y
  | cons c t ih =>
    rw [List.cons_append, utf8Len_cons]
    have hpos := Char.utf8Size_pos c
    obtain ⟨m, hm⟩ : ∃ m, c.utf8Size + utf8Len t = m + 1 :=
      ⟨c.utf8Size + utf8Len t - 1, by omega⟩
    rw [hm]
    show byteDrop (c :: (t ++ y)) (m + 1) = some y
    rw [byteDrop, if_pos (by omega)]
    have harg : m + 1 - c.utf8Size = utf8Len t := by omega
    rw [harg]
    exact ih

theorem byteDrop_ascii {s : List Char} {n : Nat}
    (h : ∀ c ∈ s, c.utf8Size = 1) (hn : n ≤ s.length) :
    byteDrop s n = some (s.drop n) := by
  induction s generalizing n with
  | nil =>
    have hz : n = 0 := by simpa using hn
    subst hz
    exact byteDrop_zero []
  | cons c t ih =>
    cases n with
    | zero => simpa using byteDrop_zero (c :: t)
    | succ m =>
      have hc : c.utf8Size = 1 := h c (List.mem_cons_self c t)
      rw [byteDrop, if_pos (by omega), hc]
      have harg : m + 1 - 1 = m := by omega
      rw [harg, List.drop_succ_cons]
      exact ih (fun d hd => h d (List.mem_cons_of_mem c hd)) (by simpa using hn)

theorem filter_hyphens_of_hex {s : List Char} (h : s.all isHexDigit = true) :
    s.filter (fun c => c ≠ '-') = s := by
  rw [List.filter_eq_self]
  intro a ha
  rw [List.all_eq_true] at h
  exact decide_eq_true (hexDigit_ne_hyphen (h a ha))

/-! ## Hex numeral lemmas: `{:06X}` rendering and `from_str_radix` parsing -/

theorem hexVal_lt {c : Char} (h : isHexDigit c = true) : hexVal c < 16 := by
  rw [isHexDigit_iff] at h
  unfold hexVal
  split
  · omega
  · split <;> omega

theorem hexVal_hexDigitUpper {d : Nat} (h : d < 16) : hexVal (hexDigitUpper d) = d := by
  interval_cases d <;> decide

theorem isUpperHexDigit_hexDigitUpper {d : Nat} (h : d < 16) :
    isUpperHexDigit (hexDigitUpper d) = true := by
  interval_cases d <;> decide

theorem hexDigitUpper_hexVal {c : Char} (h : isUpperHexDigit c = true) :
    hexDigitUpper (hexVal c) = c := by
  rw [isUpperHexDigit_iff] at h
  rcases h with h | h
  · have h1 : hexVal c = c.toNat - 48 := by
      unfold hexVal
      rw [if_pos (by omega)]
    rw [h1]
    unfold hexDigitUpper
    rw [if_pos (by omega)]
    apply char_eq_of_toNat_eq
    rw [char_toNat_ofNat (by omega)]
    omega
  · have h1 : hexVal c = c.toNat - 55 := by
      unfold hexVal
      rw [if_neg (by omega), if_pos (by omega)]
    rw [h1]
    unfold hexDigitUpper
    rw [if_neg (by omega)]
    apply char_eq_of_toNat_eq
    rw [char_toNat_ofNat (by omega)]
    omega

theorem hexParse_nil : hexParse [] = 0 := rfl

theorem hexParse_acc (s : List Char) (a : Nat) :
    s.foldl (fun x c => 16 * x + hexVal c) a = a * 16 ^ s.length + hexParse s := by
  induction s generalizing a with
  | nil => simp [hexParse]
  | cons c t ih =>
    show t.foldl _ (16 * a + hexVal c) = _
    rw [ih (16 * a + hexVal c)]
    have h2 : hexParse (c :: t) = hexVal c * 16 ^ t.length + hexParse t := by
      show t.foldl _ (16 * 0 + hexVal c) = _
      rw [ih (16 * 0 + hexVal c)]
      ring
    rw [h2, List.length_cons]
    ring

theorem hexParse_cons (c : Char) (t : List Char) :
    hexParse (c :: t) = hexVal c * 16 ^ t.length + hexParse t := by
  show t.foldl _ (16 * 0 + hexVal c) = _
  rw [hexParse_acc t (16 * 0 + hexVal c)]
  ring

theorem hexParse_append (a b : List Char) :
    hexParse (a ++ b) = hexParse a * 16 ^ b.length + hexParse b := by
  unfold hexParse
  rw [List.foldl_append]
  exact hexParse_acc b _

theorem hexParse_lt {s : List Char} (h : s.all isHexDigit = true) :
    hexParse s < 16 ^ s.length := by
  induction s with
  | nil => simp [hexParse_nil]
  | cons c t ih =>
    rw [List.all_cons, Bool.and_eq_true] at h
    have h1 : hexVal c < 16 := hexVal_lt h.1
    have h2 : hexParse t < 16 ^ t.length := ih h.2
    rw [hexParse_cons, List.length_cons]
    calc hexVal c * 16 ^ t.length + hexParse t
        < hexVal c * 16 ^ t.length + 16 ^ t.length := by omega
      _ = (hexVal c + 1) * 16 ^ t.length := by ring
      _ ≤ 16 * 16 ^ t.length := Nat.mul_le_mul_right _ (by omega)
      _ = 16 ^ (t.length + 1) := by ring

theorem hexParse_replicate_zero (k : Nat) (s : List Char) :
    hexParse (List.replicate k '0' ++ s) = hexParse s := by
  rw [hexParse_append]
  have h0 : hexParse (List.replicate k '0') = 0 := by
    induction k with
    | zero => rfl
    | succ m ih =>
      rw [List.replicate_succ, hexParse_cons, ih]
      have hv : hexVal '0' = 0 := by decide
      rw [hv]
      simp
  rw [h0]
  omega

theorem natToHexUpper_spec (n : Nat) :
    hexParse (natToHexUpper n) = n ∧ (natToHexUpper n).all isUpperHexDigit = true ∧
      1 ≤ (natToHexUpper n).length := by
  induction n using Nat.strong_induction_on with
  | _ n ih =>
    by_cases h : n < 16
    · rw [natToHexUpper, dif_pos h]
      refine ⟨?_, ?_, by simp⟩
      · rw [hexParse_cons, hexParse_nil, hexVal_hexDigitUpper h]
        simp
      · simp [isUpperHexDigit_hexDigitUpper h]
    · rw [natToHexUpper, dif_neg h]
      have hdiv : n / 16 < n := Nat.div_lt_self (by omega) (by omega)
      obtain ⟨ih1, ih2, _⟩ := ih (n / 16) hdiv
      refine ⟨?_, ?_, by simp⟩
      · rw [hexParse_append, ih1, hexParse_cons, hexParse_nil,
          hexVal_hexDigitUpper (Nat.mod_lt _ (by omega))]
        simp only [List.length_singleton, List.length_nil, pow_one, pow_zero]
        omega
      · rw [List.all_append, ih2]
        simp [isUpperHexDigit_hexDigitUpper (Nat.mod_lt n (show 0 < 16 by omega))]

theorem natToHexUpper_length_le {n k : Nat} (hk : 1 ≤ k) (h : n < 16 ^ k) :
    (natToHexUpper n).length ≤ k := by
  induction n using Nat.strong_induction_on generalizing k with
  | _ n ih =>
    by_cases hn : n < 16
    · rw [natToHexUpper, dif_pos hn]
      simpa using hk
    · rw [natToHexUpper, dif_neg hn]
      have hk2 : 2 ≤ k := by
        by_contra hc
        have hk1 : k = 1 := by omega
        subst hk1
        simp at h
        omega
      have hdiv : n / 16 < n := Nat.div_lt_self (by omega) (by omega)
      have hlt : n / 16 < 16 ^ (k - 1) := by
        rw [Nat.div_lt_iff_lt_mul (by omega)]
        calc n < 16 ^ k := h
          _ = 16 ^ (k - 1) * 16 := by
            rw [← pow_succ]
            congr 1
            omega
      have := ih (n / 16) hdiv (k := k - 1) (by omega) hlt
      rw [List.length_append, List.length_singleton]
      omega

theorem digit_block_inj {B v1 v2 p1 p2 : Nat} (hp1 : p1 < B) (hp2 : p2 < B)
    (h : v1 * B + p1 = v2 * B + p2) : v1 = v2 ∧ p1 = p2 := by
  have key : ∀ a b q1 q2 : Nat, q1 < B → q2 < B → a < b → a * B + q1 ≠ b * B + q2 := by
    intro a b q1 q2 hq1 hq2 hab
    have h1 : (a + 1) * B ≤ b * B := Nat.mul_le_mul_right B (by omega)
    have h2 : (a + 1) * B = a * B + B := by ring
    omega
  have hv : v1 = v2 := by
    rcases Nat.lt_trichotomy v1 v2 with hlt | heq | hgt
    · exact absurd h (key _ _ _ _ hp1 hp2 hlt)
    · exact heq
    · exact absurd h.symm (key _ _ _ _ hp2 hp1 hgt)
  subst hv
  exact ⟨rfl, by omega⟩

theorem hexParse_inj {s t : List Char} (hs : s.all isUpperHexDigit = true)
    (ht : t.all isUpperHexDigit = true) (hlen : s.length = t.length)
    (h : hexParse s = hexParse t) : s = t := by
  induction s generalizing t with
  | nil =>
    cases t with
    | nil => rfl
    | cons d t2 => simp at hlen
  | cons c s2 ih =>
    cases t with
    | nil => simp at hlen
    | cons d t2 =>
      rw [List.all_cons, Bool.and_eq_true] at hs ht
      rw [List.length_cons, List.length_cons] at hlen
      have hlen2 : s2.length = t2.length := by omega
      rw [hexParse_cons, hexParse_cons, hlen2] at h
      have b1 : hexParse s2 < 16 ^ t2.length :=
        hlen2 ▸ hexParse_lt (all_upper_imp_hex hs.2)
      have b2 : hexParse t2 < 16 ^ t2.length := hexParse_lt (all_upper_imp_hex ht.2)
      have hv := digit_block_inj b1 b2 h
      have hc : c = d := by
        rw [← hexDigitUpper_hexVal hs.1, ← hexDigitUpper_hexVal ht.1, hv.1]
      rw [hc, ih hs.2 ht.2 hlen2 hv.2]

theorem fmtHex06_spec {t : Nat} (h : t < 16 ^ 6) :
    (fmtHex06 t).length = 6 ∧ (fmtHex06 t).all isUpperHexDigit = true ∧
      hexParse (fmtHex06 t) = t := by
  obtain ⟨h1, h2, h3⟩ := natToHexUpper_spec t
  have hlen : (natToHexUpper t).length ≤ 6 := natToHexUpper_length_le (by omega) h
  unfold fmtHex06
  refine ⟨?_, ?_, ?_⟩
  · simp only [List.length_append, List.length_replicate]
    omega
  · rw [List.all_append, Bool.and_eq_true]
    refine ⟨?_, h2⟩
    rw [List.all_eq_true]
    intro c hc
    rw [List.eq_of_mem_replicate hc]
    decide
  · rw [hexParse_replicate_zero]
    exact h1

theorem fromStrRadix16_fmtHex06 {t : Nat} (h : t ≤ 16777215) :
    fromStrRadix16 (fmtHex06 t) = some t := by
  obtain ⟨l6, hall, hp⟩ := fmtHex06_spec (show t < 16 ^ 6 by omega)
  unfold fromStrRadix16
  rw [if_pos ⟨by intro e; rw [e] at l6; simp at l6, all_upper_imp_hex hall⟩]
  show (if hexParse (fmtHex06 t) ≤ 2147483647 then some (hexParse (fmtHex06 t)) else none) = _
  rw [hp, if_pos (by omega)]

theorem fromStrRadix16_of_upperHex {s : List Char} (h6 : s.length = 6)
    (hs : s.all isUpperHexDigit = true) : fromStrRadix16 s = some (hexParse s) := by
  have hlt : hexParse s < 16 ^ 6 := h6 ▸ hexParse_lt (all_upper_imp_hex hs)
  unfold fromStrRadix16
  rw [if_pos ⟨by intro e; rw [e] at h6; simp at h6, all_upper_imp_hex hs⟩]
  show (if hexParse s ≤ 2147483647 then some (hexParse s) else none) = _
  rw [if_pos (by omega)]

theorem fmtHex06_hexParse {s : List Char} (h6 : s.length = 6)
    (hs : s.all isUpperHexDigit = true) : fmtHex06 (hexParse s) = s := by
  have hlt : hexParse s < 16 ^ 6 := h6 ▸ hexParse_lt (all_upper_imp_hex hs)
  obtain ⟨l6, hall, hp⟩ := fmtHex06_spec hlt
  exact hexParse_inj hall hs (by omega) hp

/-! ## `Hex14` and slug-codec lemmas -/

theorem map_asciiToUpper_of_upper {s : List Char} (h : s.all isUpperHexDigit = true) :
    s.map asciiToUpper = s := by
  induction s with
  | nil => rfl
  | cons c t ih =>
    rw [List.all_cons, Bool.and_eq_true] at h
    rw [List.map_cons, asciiToUpper_upperHex h.1, ih h.2]

theorem all_upper_map_asciiToUpper {s : List Char} (h : s.all isHexDigit = true) :
    (s.map asciiToUpper).all isUpperHexDigit = true := by
  rw [List.all_eq_true] at h ⊢
  intro c hc
  rw [List.mem_map] at hc
  obtain ⟨d, hd, rfl⟩ := hc
  exact asciiToUpper_hex (h d hd)

theorem find?_first_nonhex {pre suf : List Char} {c : Char}
    (hpre : pre.all isHexDigit = true) (hc : isHexDigit c = false) :
    (pre ++ c :: suf).find? (fun d => !(isHexDigit d)) = some c := by
  induction pre with
  | nil =>
    rw [List.nil_append, List.find?_cons]
    simp [hc]
  | cons p ps ih =>
    rw [List.all_cons, Bool.and_eq_true] at hpre
    rw [List.cons_append, List.find?_cons]
    have hp : (!(isHexDigit p)) = false := by simp [hpre.1]
    rw [hp]
    exact ih hpre.2

theorem Hex14_new_of_hex {s : List Char} (hlen : utf8Len s = 14)
    (hall : s.all isHexDigit = true) : Hex14.new s = .ok (s.map asciiToUpper) := by
  unfold Hex14.new
  rw [if_neg (by omega)]
  have hf : s.find? (fun c => !(isHexDigit c)) = none := by
    rw [List.find?_eq_none]
    intro c hc
    rw [List.all_eq_true] at hall
    simp [hall c hc]
  rw [hf]

theorem Hex14_new_valid {v : List Char} (h : Hex14.Valid v) : Hex14.new v = .ok v := by
  obtain ⟨h1, h2⟩ := h
  rw [Hex14_new_of_hex (by rw [utf8Len_of_upperHex h2]; exact h1) (all_upper_imp_hex h2),
    map_asciiToUpper_of_upper h2]

theorem slugMatch_valid_id {v : List Char} (h : Hex14.Valid v) : slugMatch v = some (v, []) := by
  obtain ⟨h1, h2⟩ := h
  have ht : v.take 14 = v := List.take_of_length_le (by omega)
  have hd : v.drop 14 = [] := List.drop_eq_nil_of_le (by omega)
  simp only [slugMatch, ht, hd]
  rw [if_pos ⟨h1, h2⟩]

theorem slugMatch_valid_tap {v b : List Char} (hv : Hex14.Valid v) (hb6 : b.length = 6)
    (hball : b.all isUpperHexDigit = true) : slugMatch (v ++ 'x' :: b) = some (v, b) := by
  obtain ⟨h1, h2⟩ := hv
  have ht : (v ++ 'x' :: b).take 14 = v := by
    rw [← h1]
    exact List.take_left v ('x' :: b)
  have hd : (v ++ 'x' :: b).drop 14 = 'x' :: b := by
    rw [← h1]
    exact List.drop_left v ('x' :: b)
  simp only [slugMatch, ht, hd]
  rw [if_pos ⟨h1, h2⟩]
  simp only [if_pos (And.intro hb6 hball)]

theorem slugMatch_sound {s i t : List Char} (h : slugMatch s = some (i, t)) :
    i.length = 14 ∧ i.all isUpperHexDigit = true ∧
      ((s = i ∧ t = []) ∨
        (s = i ++ 'x' :: t ∧ t.length = 6 ∧ t.all isUpperHexDigit = true)) := by
  have hs : s.take 14 ++ s.drop 14 = s := List.take_append_drop 14 s
  simp only [slugMatch] at h
  split at h
  · rename_i hc
    split at h
    · rename_i hdrop
      injection h with h
      injection h with hi hts
      subst hi
      subst hts
      refine ⟨hc.1, hc.2, Or.inl ⟨?_, rfl⟩⟩
      conv_lhs => rw [← hs]
      rw [hdrop, List.append_nil]
    · rename_i t2 hdrop
      split at h
      · rename_i hc2
        injection h with h
        injection h with hi hts
        subst hi
        subst hts
        refine ⟨hc.1, hc.2, Or.inr ⟨?_, hc2.1, hc2.2⟩⟩
        conv_lhs => rw [← hs]
        rw [hdrop]
      · exact absurd h (by simp)
    · exact absurd h (by simp)
  · exact absurd h (by simp)

theorem decodeSlug_valid_id {v : List Char} (h : Hex14.Valid v) :
    decodeSlug v = some (v, none) := by
  simp only [decodeSlug, slugMatch_valid_id h, Hex14_new_valid h, List.isEmpty_nil,
    if_pos]

theorem decodeSlug_valid_tap {v b : List Char} (hv : Hex14.Valid v) (hb6 : b.length = 6)
    (hball : b.all isUpperHexDigit = true) :
    decodeSlug (v ++ 'x' :: b) = some (v, some (hexParse b)) := by
  have hne : b.isEmpty = false := by
    cases b
    · simp at hb6
    · rfl
  simp only [decodeSlug, slugMatch_valid_tap hv hb6 hball, Hex14_new_valid hv, hne,
    Bool.false_eq_true, if_neg, fromStrRadix16_of_upperHex hb6 hball]
  simp

theorem decodeSlug_none_of_match_none {s : List Char} (hm : slugMatch s = none) :
    decodeSlug s = none := by
  simp only [decodeSlug, hm]

/-- Claim C1 — the slug encoding and decoding are mutually inverse: encoding
any valid `(HexIdentifier, optional tap count ≤ 0xFFFFFF)` pair and decoding
the result gives back exactly that pair, and decoding any accepted slug string
and re-encoding gives back exactly that string, the decoded pair always lying
in the valid domain: a bijection between accepted slug strings and valid
pairs. -/
theorem c1_slug_codec_roundtrip_bijection :
    (∀ (v : List Char) (t : Option Nat), Hex14.Valid v → (∀ n ∈ t, n ≤ 16777215) →
      decodeSlug (encodeSlug v t) = some (v, t)) ∧
    (∀ (s v : List Char) (t : Option Nat), decodeSlug s = some (v, t) →
      encodeSlug v t = s ∧ Hex14.Valid v ∧ ∀ n ∈ t, n ≤ 16777215) := by
  constructor
  · intro v t hv ht
    cases t with
    | none =>
      show decodeSlug (v ++ []) = _
      rw [List.append_nil]
      exact decodeSlug_valid_id hv
    | some n =>
      have hn : n ≤ 16777215 := ht n rfl
      obtain ⟨l6, hall, hp⟩ := fmtHex06_spec (show n < 16 ^ 6 by omega)
      show decodeSlug (v ++ 'x' :: fmtHex06 n) = _
      rw [decodeSlug_valid_tap hv l6 hall, hp]
  · intro s v t h
    cases hm : slugMatch s with
    | none =>
      rw [decodeSlug_none_of_match_none hm] at h
      exact absurd h (by simp)
    | some p =>
      obtain ⟨i, ts⟩ := p
      obtain ⟨hi14, hiall, hcase⟩ := slugMatch_sound hm
      have hvalid : Hex14.Valid i := ⟨hi14, hiall⟩
      rcases hcase with ⟨hse, hte⟩ | ⟨hse, ht6, htall⟩
      · rw [hse] at h
        rw [decodeSlug_valid_id hvalid] at h
        injection h with h
        injection h with hv2 ht2
        rw [hse, ← hv2, ← ht2]
        refine ⟨?_, hvalid, by intro n hn; exact absurd hn (by simp)⟩
        show i ++ [] = i
        rw [List.append_nil]
      · rw [hse] at h
        rw [decodeSlug_valid_tap hvalid ht6 htall] at h
        injection h with h
        injection h with hv2 ht2
        rw [hse, ← hv2, ← ht2]
        have hbound : hexParse ts < 16 ^ 6 := ht6 ▸ hexParse_lt (all_upper_imp_hex htall)
        refine ⟨?_, hvalid, ?_⟩
        · show i ++ 'x' :: fmtHex06 (hexParse ts) = i ++ 'x' :: ts
          rw [fmtHex06_hexParse ht6 htall]
        · intro n hn
          rw [Option.mem_def] at hn
          injection hn with hn
          omega

/-- Claim C1 witness: the round trip at the pair `("055B88A23C1250", 15)` and
the inverse direction at the slug `"055B88A23C1250x00000F"`. -/
theorem c1_witness :
    decodeSlug (encodeSlug ("055B88A23C1250").toList (some 15)) =
      some (("055B88A23C1250").toList, some 15) ∧
    encodeSlug ("055B88A23C1250").toList (some 15) = ("055B88A23C1250x00000F").toList := by
  constructor
  · exact c1_slug_codec_roundtrip_bijection.1 ("055B88A23C1250").toList (some 15)
      (by constructor <;> decide) (by intro n hn; injection hn with hn; omega)
  · exact (c1_slug_codec_roundtrip_bijection.2 ("055B88A23C1250x00000F").toList
      ("055B88A23C1250").toList (some 15) (by decide)).1

/-- Claim C2 — slug decoding accepts exactly the strings of the anchored
grammar `[0-9A-F]{14}(x[0-9A-F]{6})?` covering the whole input: every other
string (empty, wrong-length or lowercase hex run, wrong-length tap suffix,
leading or trailing characters) is rejected outright — `decodeSlug` returns
`none`, never a partial parse. -/
theorem c2_decode_accepts_exactly_grammar (s : List Char) :
    (decodeSlug s).isSome = true ↔ SlugGrammar s := by
  constructor
  · intro h
    rw [Option.isSome_iff_exists] at h
    obtain ⟨⟨v, t⟩, h⟩ := h
    simp only [decodeSlug] at h
    cases hm : slugMatch s with
    | none => rw [hm] at h; exact absurd h (by simp)
    | some p =>
      obtain ⟨i, ts⟩ := p
      obtain ⟨hi14, hiall, hcase⟩ := slugMatch_sound hm
      rcases hcase with ⟨hse, hte⟩ | ⟨hse, ht6, htall⟩
      · exact Or.inl (by rw [hse]; exact ⟨hi14, hiall⟩)
      · exact Or.inr ⟨i, ts, hse, hi14, hiall, ht6, htall⟩
  · intro h
    rcases h with ⟨h14, hall⟩ | ⟨a, b, hse, ha14, haall, hb6, hball⟩
    · rw [decodeSlug_valid_id ⟨h14, hall⟩]
      rfl
    · rw [hse, decodeSlug_valid_tap ⟨ha14, haall⟩ hb6 hball]
      rfl

/-- Claim C3 — `Hex14::new` rejects any input whose (byte) length is not 14
with `InvalidLength` carrying that length; rejects a 14-byte input containing
a non-hex character with `InvalidCharacter` naming the first such character;
and accepts every 14-character ASCII-hex input of any letter case, storing
(and hence rendering) the uppercased input. -/
theorem c3_hex14_parse_cases :
    (∀ s : List Char, utf8Len s ≠ 14 → Hex14.new s = .error (.invalidLength (utf8Len s))) ∧
    (∀ (pre suf : List Char) (c : Char), utf8Len (pre ++ c :: suf) = 14 →
      pre.all isHexDigit = true → isHexDigit c = false →
      Hex14.new (pre ++ c :: suf) = .error (.invalidCharacter c)) ∧
    (∀ s : List Char, utf8Len s = 14 → s.all isHexDigit = true →
      Hex14.new s = .ok (s.map asciiToUpper)) := by
  refine ⟨?_, ?_, ?_⟩
  · intro s h
    unfold Hex14.new
    rw [if_pos h]
  · intro pre suf c hlen hpre hc
    unfold Hex14.new
    rw [if_neg (by omega)]
    rw [find?_first_nonhex hpre hc]
  · intro s h1 h2
    exact Hex14_new_of_hex h1 h2

/-- Claim C3 witness: the three cases at concrete inputs — a 6-character
input, a 14-character input with a `G`, and the lowercase `a1b2c3d4e5f678`. -/
theorem c3_witness :
    Hex14.new ("A1B2C3").toList = .error (.invalidLength 6) ∧
    Hex14.new ("G1B2C3D4E5F678").toList = .error (.invalidCharacter 'G') ∧
    Hex14.new ("a1b2c3d4e5f678").toList = .ok (("A1B2C3D4E5F678").toList) := by
  refine ⟨?_, ?_, ?_⟩
  · have h := c3_hex14_parse_cases.1 ("A1B2C3").toList (by decide)
    rw [h]
    rfl
  · have h := c3_hex14_parse_cases.2.1 [] ("1B2C3D4E5F678").toList 'G' (by decide)
      (by decide) (by decide)
    rw [show ([] : List Char) ++ 'G' :: ("1B2C3D4E5F678").toList =
      ("G1B2C3D4E5F678").toList from rfl] at h
    rw [h]
  · have h := c3_hex14_parse_cases.2.2 ("a1b2c3d4e5f678").toList (by decide) (by decide)
    rw [h]
    rfl

/-! ## Handler-flow lemmas and claims C7, C8, C9 -/

theorem natToHexUpper_lt {n : Nat} (h : n < 16) : natToHexUpper n = [hexDigitUpper n] := by
  rw [natToHexUpper, dif_pos h]

theorem get_tag_by_id_decode (store : List Char → Option (List Char)) (param : List Char) :
    get_tag_by_id store param =
      match decodeSlug param with
      | none => .badRequest
      | some (id, tap) =>
        match store id with
        | none => .temporaryRedirect (createUrl id tap)
        | some tag => .permanentRedirect tag := by
  cases hm : slugMatch param with
  | none => simp only [get_tag_by_id, decodeSlug, hm]
  | some p =>
    obtain ⟨i, ts⟩ := p
    cases hn : Hex14.new i with
    | error e => simp only [get_tag_by_id, decodeSlug, hm, hn]
    | ok id =>
      cases hs : store id with
      | none =>
        simp only [get_tag_by_id, decodeSlug, hm, hn, hs, createUrl]
      | some tag =>
        simp only [get_tag_by_id, decodeSlug, hm, hn, hs]

/-- Claim C7 — for every inbound slug request: a slug that fails to decode is
answered with the bad-request error, for every store (so no storage lookup can
influence the answer); a decoded slug whose identifier has a stored record is
answered with a permanent redirect to the stored target URL; and a decoded
slug with no stored record is answered with a temporary redirect to
`/tag/create?id=<HEX14>`, with `&tap_count=<HEX6>` appended exactly when a
tap count was decoded. -/
theorem c7_handler_state_machine :
    (∀ (store : List Char → Option (List Char)) (param : List Char),
      decodeSlug param = none → get_tag_by_id store param = .badRequest) ∧
    (∀ (store : List Char → Option (List Char)) (param id : List Char) (tap : Option Nat)
      (url : List Char), decodeSlug param = some (id, tap) → store id = some url →
      get_tag_by_id store param = .permanentRedirect url) ∧
    (∀ (store : List Char → Option (List Char)) (param id : List Char) (tap : Option Nat),
      decodeSlug param = some (id, tap) → store id = none →
      get_tag_by_id store param = .temporaryRedirect (createUrl id tap)) := by
  refine ⟨?_, ?_, ?_⟩
  · intro store param h
    rw [get_tag_by_id_decode, h]
  · intro store param id tap url hd hs
    rw [get_tag_by_id_decode, hd]
    simp only [hs]
  · intro store param id tap hd hs
    rw [get_tag_by_id_decode, hd]
    simp only [hs]

/-- Claim C7 witness: with an empty store, the malformed slug `"zz"` is a bad
request; with a one-entry store, the slug `"055B88A23C1250"` permanently
redirects to the stored URL, and under the empty store the slug
`"055B88A23C1250x00000F"` temporarily redirects to the creation URL carrying
`tap_count=00000F`. -/
theorem c7_witness :
    get_tag_by_id (fun _ => none) (("zz").toList) = .badRequest ∧
    get_tag_by_id
      (fun k => if k = ("055B88A23C1250").toList then some (("https://example.com").toList) else none)
      (("055B88A23C1250").toList) = .permanentRedirect (("https://example.com").toList) ∧
    get_tag_by_id (fun _ => none) (("055B88A23C1250x00000F").toList) =
      .temporaryRedirect (("/tag/create?id=055B88A23C1250&tap_count=00000F").toList) := by
  refine ⟨?_, ?_, ?_⟩
  · exact c7_handler_state_machine.1 _ _ (by decide)
  · exact c7_handler_state_machine.2.1 _ _ ("055B88A23C1250").toList none
      (("https://example.com").toList) (by decide) (by decide)
  · have h := c7_handler_state_machine.2.2 (fun _ => none) (("055B88A23C1250x00000F").toList)
      (("055B88A23C1250").toList) (some 15) (by decide) rfl
    rw [h]
    have hf : fmtHex06 15 = ("00000F").toList := by
      unfold fmtHex06
      rw [natToHexUpper_lt (by omega)]
      decide
    simp only [createUrl, hf]
    decide

/-- Claim C8 — an absent tap-count suffix decodes to the unset value, not
zero; the creation redirect then omits the `tap_count` parameter entirely; and
the default tap count 1 is substituted only on the tag-creation path, exactly
when neither the form body nor the query string supplies a value. -/
theorem c8_tap_count_default_asymmetry :
    (∀ v : List Char, Hex14.Valid v → decodeSlug v = some (v, none)) ∧
    (∀ id : List Char, createUrl id none = ("/tag/create?id=").toList ++ id) ∧
    create_tag_tap_count none none = 1 ∧
    (∀ (n : Nat) (q : Option Nat), create_tag_tap_count (some n) q = n) ∧
    (∀ n : Nat, create_tag_tap_count none (some n) = n) := by
  refine ⟨?_, ?_, rfl, ?_, ?_⟩
  · intro v hv
    exact decodeSlug_valid_id hv
  · intro id
    rfl
  · intro n q
    rfl
  · intro n
    rfl

/-- Claim C8 witness: `"055B88A23C1250"` decodes with the tap count unset, its
creation URL has no `tap_count` parameter, and the creation-path default
applies only when both sources are absent. -/
theorem c8_witness :
    decodeSlug (("055B88A23C1250").toList) = some ((("055B88A23C1250").toList), none) ∧
    createUrl (("055B88A23C1250").toList) none = ("/tag/create?id=055B88A23C1250").toList ∧
    create_tag_tap_count none none = 1 ∧
    create_tag_tap_count (some 7) (some 9) = 7 ∧
    create_tag_tap_count none (some 9) = 9 := by
  refine ⟨c8_tap_count_default_asymmetry.1 _ (by decide), ?_, ?_, ?_, ?_⟩
  · rw [c8_tap_count_default_asymmetry.2.1 (("055B88A23C1250").toList)]
    rfl
  · exact c8_tap_count_default_asymmetry.2.2.1
  · exact c8_tap_count_default_asymmetry.2.2.2.1 7 (some 9)
  · exact c8_tap_count_default_asymmetry.2.2.2.2 9

theorem asciiToUpper_ne_of_lower {c : Char} (h1 : 97 ≤ c.toNat) (h2 : c.toNat ≤ 122) :
    asciiToUpper c ≠ c := by
  unfold asciiToUpper
  rw [if_pos ⟨h1, h2⟩]
  intro e
  have he := congrArg Char.toNat e
  rw [char_toNat_ofNat (by omega)] at he
  omega

theorem map_ne_of_exists_ne {f : Char → Char} {s : List Char} (h : ∃ c ∈ s, f c ≠ c) :
    s.map f ≠ s := by
  induction s with
  | nil => simp at h
  | cons a t ih =>
    obtain ⟨c, hc, hne⟩ := h
    rw [List.mem_cons] at hc
    intro he
    rw [List.map_cons] at he
    injection he with h1 h2
    rcases hc with rfl | hc
    · exact hne h1
    · exact ih ⟨c, hc, hne⟩ h2

/-- Claim C9 — the raw-string equality of a constructed identifier compares
the stored canonical uppercase value against the comparand's literal
characters without case-normalising the comparand: a valid 14-hex input
containing a lowercase letter parses to the uppercased value, which compares
equal to the uppercased string and unequal to the original input. -/
theorem c9_raw_string_equality_no_casefold :
    ∀ s : List Char, s.length = 14 → s.all isHexDigit = true →
      (∃ c ∈ s, 97 ≤ c.toNat ∧ c.toNat ≤ 122) →
      Hex14.new s = .ok (s.map asciiToUpper) ∧
      Hex14.eqString (s.map asciiToUpper) (s.map asciiToUpper) = true ∧
      Hex14.eqString (s.map asciiToUpper) s = false := by
  intro s h14 hall hex
  refine ⟨Hex14_new_of_hex (by rw [utf8Len_of_hex hall]; exact h14) hall, ?_, ?_⟩
  · unfold Hex14.eqString
    simp
  · unfold Hex14.eqString
    rw [beq_eq_false_iff_ne]
    obtain ⟨c, hc, hl, hu⟩ := hex
    exact map_ne_of_exists_ne ⟨c, hc, asciiToUpper_ne_of_lower hl hu⟩

/-- Claim C9 witness: `"a1b2c3d4e5f678"` parses to `"A1B2C3D4E5F678"`, which
compares equal to the uppercased string and unequal to the lowercase
original. -/
theorem c9_witness :
    Hex14.new (("a1b2c3d4e5f678").toList) = .ok (("A1B2C3D4E5F678").toList) ∧
    Hex14.eqString (("A1B2C3D4E5F678").toList) (("A1B2C3D4E5F678").toList) = true ∧
    Hex14.eqString (("A1B2C3D4E5F678").toList) (("a1b2c3d4e5f678").toList) = false := by
  have h := c9_raw_string_equality_no_casefold (("a1b2c3d4e5f678").toList) (by decide)
    (by decide) ⟨'a', by decide, by decide, by decide⟩
  obtain ⟨h1, h2, h3⟩ := h
  refine ⟨?_, ?_, ?_⟩
  · rw [h1]
    rfl
  · rw [show ("A1B2C3D4E5F678").toList = (("a1b2c3d4e5f678").toList).map asciiToUpper from rfl]
    exact h2
  · rw [show ("A1B2C3D4E5F678").toList = (("a1b2c3d4e5f678").toList).map asciiToUpper from rfl]
    exact h3

/-! ## UUID-shape lemmas -/

theorem all_of_take {s : List Char} {p : Char → Bool} (h : s.all p = true) (n : Nat) :
    (s.take n).all p = true := by
  rw [List.all_eq_true] at h ⊢
  intro c hc
  exact h c (List.take_subset n s hc)

theorem all_of_drop {s : List Char} {p : Char → Bool} (h : s.all p = true) (n : Nat) :
    (s.drop n).all p = true := by
  rw [List.all_eq_true] at h ⊢
  intro c hc
  exact h c (List.drop_subset n s hc)

theorem take_drop_concat {u : List Char} (h32 : u.length = 32) :
    u.take 8 ++ ((u.drop 8).take 4 ++ ((u.drop 12).take 4 ++
      ((u.drop 16).take 4 ++ (u.drop 20).take 12))) = u := by
  have e5 : (u.drop 20).take 12 = u.drop 20 := by
    apply List.take_of_length_le
    rw [List.length_drop]
    omega
  have d4 : (u.drop 16).drop 4 = u.drop 20 := by
    rw [List.drop_drop]
  have e4 : (u.drop 16).take 4 ++ u.drop 20 = u.drop 16 := by
    rw [← d4]
    exact List.take_append_drop 4 (u.drop 16)
  have d3 : (u.drop 12).drop 4 = u.drop 16 := by
    rw [List.drop_drop]
  have e3 : (u.drop 12).take 4 ++ u.drop 16 = u.drop 12 := by
    rw [← d3]
    exact List.take_append_drop 4 (u.drop 12)
  have d2 : (u.drop 8).drop 4 = u.drop 12 := by
    rw [List.drop_drop]
  have e2 : (u.drop 8).take 4 ++ u.drop 12 = u.drop 8 := by
    rw [← d2]
    exact List.take_append_drop 4 (u.drop 8)
  rw [e5, e4, e3, e2]
  exact List.take_append_drop 8 u

theorem splitUuid_of_shape {a b c d e : List Char} (ha : a.length = 8) (hb : b.length = 4)
    (hc : c.length = 4) (hd : d.length = 4) (he : e.length = 12)
    (haall : a.all isHexDigit = true) (hball : b.all isHexDigit = true)
    (hcall : c.all isHexDigit = true) (hdall : d.all isHexDigit = true)
    (heall : e.all isHexDigit = true) :
    splitUuid (a ++ '-' :: (b ++ '-' :: (c ++ '-' :: (d ++ '-' :: e)))) =
      some (a ++ b ++ c ++ d ++ e) := by
  have ta : (a ++ '-' :: (b ++ '-' :: (c ++ '-' :: (d ++ '-' :: e)))).take 8 = a := by
    rw [← ha]
    exact List.take_left a _
  have da : (a ++ '-' :: (b ++ '-' :: (c ++ '-' :: (d ++ '-' :: e)))).drop 8 =
      '-' :: (b ++ '-' :: (c ++ '-' :: (d ++ '-' :: e))) := by
    rw [← ha]
    exact List.drop_left a _
  have tb : (b ++ '-' :: (c ++ '-' :: (d ++ '-' :: e))).take 4 = b := by
    rw [← hb]
    exact List.take_left b _
  have db : (b ++ '-' :: (c ++ '-' :: (d ++ '-' :: e))).drop 4 =
      '-' :: (c ++ '-' :: (d ++ '-' :: e)) := by
    rw [← hb]
    exact List.drop_left b _
  have tc : (c ++ '-' :: (d ++ '-' :: e)).take 4 = c := by
    rw [← hc]
    exact List.take_left c _
  have dc : (c ++ '-' :: (d ++ '-' :: e)).drop 4 = '-' :: (d ++ '-' :: e) := by
    rw [← hc]
    exact List.drop_left c _
  have td : (d ++ '-' :: e).take 4 = d := by
    rw [← hd]
    exact List.take_left d _
  have dd : (d ++ '-' :: e).drop 4 = '-' :: e := by
    rw [← hd]
    exact List.drop_left d _
  simp only [splitUuid, ta, da, tb, db, tc, dc, td, dd]
  rw [if_pos ⟨ha, haall⟩, if_pos ⟨hb, hball⟩, if_pos ⟨hc, hcall⟩, if_pos ⟨hd, hdall⟩,
    if_pos ⟨he, heall⟩]

theorem splitUuid_shape_of_some {s r : List Char} (h : splitUuid s = some r) :
    ∃ a b c d e : List Char,
      s = a ++ '-' :: (b ++ '-' :: (c ++ '-' :: (d ++ '-' :: e))) ∧
      a.length = 8 ∧ b.length = 4 ∧ c.length = 4 ∧ d.length = 4 ∧ e.length = 12 ∧
      a.all isHexDigit = true ∧ b.all isHexDigit = true ∧ c.all isHexDigit = true ∧
      d.all isHexDigit = true ∧ e.all isHexDigit = true ∧ r = a ++ b ++ c ++ d ++ e := by
  simp only [splitUuid] at h
  split at h
  case isFalse => exact absurd h (by simp)
  case isTrue h1 =>
    split at h
    case h_2 => exact absurd h (by simp)
    case h_1 t1 hd1 =>
      split at h
      case isFalse => exact absurd h (by simp)
      case isTrue h2 =>
        split at h
        case h_2 => exact absurd h (by simp)
        case h_1 t2 hd2 =>
          split at h
          case isFalse => exact absurd h (by simp)
          case isTrue h3 =>
            split at h
            case h_2 => exact absurd h (by simp)
            case h_1 t3 hd3 =>
              split at h
              case isFalse => exact absurd h (by simp)
              case isTrue h4 =>
                split at h
                case h_2 => exact absurd h (by simp)
                case h_1 e hd4 =>
                  split at h
                  case isFalse => exact absurd h (by simp)
                  case isTrue h5 =>
                    injection h with h
                    refine ⟨s.take 8, t1.take 4, t2.take 4, t3.take 4, e,
                      ?_, h1.1, h2.1, h3.1, h4.1, h5.1,
                      h1.2, h2.2, h3.2, h4.2, h5.2, h.symm⟩
                    have ht3 : t3.take 4 ++ t3.drop 4 = t3 := List.take_append_drop 4 t3
                    have g3 : t3 = t3.take 4 ++ '-' :: e := by
                      conv_lhs => rw [← ht3, hd4]
                    have ht2 : t2.take 4 ++ t2.drop 4 = t2 := List.take_append_drop 4 t2
                    have s2 : t2 = t2.take 4 ++ '-' :: t3 := by
                      conv_lhs => rw [← ht2, hd3]
                    have g2 : t2 = t2.take 4 ++ '-' :: (t3.take 4 ++ '-' :: e) :=
                      s2.trans (congrArg (fun x => t2.take 4 ++ '-' :: x) g3)
                    have ht1 : t1.take 4 ++ t1.drop 4 = t1 := List.take_append_drop 4 t1
                    have s1 : t1 = t1.take 4 ++ '-' :: t2 := by
                      conv_lhs => rw [← ht1, hd2]
                    have g1 : t1 = t1.take 4 ++
                        '-' :: (t2.take 4 ++ '-' :: (t3.take 4 ++ '-' :: e)) :=
                      s1.trans (congrArg (fun x => t1.take 4 ++ '-' :: x) g2)
                    have hs : s.take 8 ++ s.drop 8 = s := List.take_append_drop 8 s
                    have s0 : s = s.take 8 ++ '-' :: t1 := by
                      conv_lhs => rw [← hs, hd1]
                    exact s0.trans (congrArg (fun x => s.take 8 ++ '-' :: x) g1)

theorem pieces_len {u : List Char} (h32 : u.length = 32) :
    (u.take 8).length = 8 ∧ ((u.drop 8).take 4).length = 4 ∧
      ((u.drop 12).take 4).length = 4 ∧ ((u.drop 16).take 4).length = 4 ∧
      ((u.drop 20).take 12).length = 12 := by
  refine ⟨?_, ?_, ?_, ?_, ?_⟩ <;>
    simp only [List.length_take, List.length_drop] <;> omega

theorem splitUuid_hyphenate {u : List Char} (h32 : u.length = 32)
    (hall : u.all isHexDigit = true) : splitUuid (hyphenate u) = some u := by
  obtain ⟨l1, l2, l3, l4, l5⟩ := pieces_len h32
  have a1 := all_of_take hall 8
  have a2 := all_of_take (all_of_drop hall 8) 4
  have a3 := all_of_take (all_of_drop hall 12) 4
  have a4 := all_of_take (all_of_drop hall 16) 4
  have a5 := all_of_take (all_of_drop hall 20) 12
  show splitUuid (u.take 8 ++ '-' :: ((u.drop 8).take 4 ++ '-' :: ((u.drop 12).take 4 ++
    '-' :: ((u.drop 16).take 4 ++ '-' :: (u.drop 20).take 12)))) = some u
  rw [splitUuid_of_shape l1 l2 l3 l4 l5 a1 a2 a3 a4 a5]
  congr 1
  rw [List.append_assoc, List.append_assoc, List.append_assoc]
  exact take_drop_concat h32

theorem utf8Len_hyphenate {u : List Char} (h32 : u.length = 32)
    (hall : u.all isHexDigit = true) : utf8Len (hyphenate u) = 36 := by
  obtain ⟨l1, l2, l3, l4, l5⟩ := pieces_len h32
  have a1 := all_of_take hall 8
  have a2 := all_of_take (all_of_drop hall 8) 4
  have a3 := all_of_take (all_of_drop hall 12) 4
  have a4 := all_of_take (all_of_drop hall 16) 4
  have a5 := all_of_take (all_of_drop hall 20) 12
  have hh : ('-').utf8Size = 1 := by decide
  show utf8Len (u.take 8 ++ '-' :: ((u.drop 8).take 4 ++ '-' :: ((u.drop 12).take 4 ++
    '-' :: ((u.drop 16).take 4 ++ '-' :: (u.drop 20).take 12)))) = 36
  rw [utf8Len_append, utf8Len_cons, utf8Len_append, utf8Len_cons, utf8Len_append,
    utf8Len_cons, utf8Len_append, utf8Len_cons, hh, utf8Len_of_hex a1, utf8Len_of_hex a2,
    utf8Len_of_hex a3, utf8Len_of_hex a4, utf8Len_of_hex a5, l1, l2, l3, l4, l5]

theorem tryParseAsUuid_bare {r : List Char} (h32 : r.length = 32)
    (hall : r.all isHexDigit = true) :
    NotionPageId.try_parse_as_uuid r = some (r.map asciiToLower) := by
  have hu : utf8Len r = 32 := by
    rw [utf8Len_of_hex hall]
    exact h32
  show Uuid.tryParse (if utf8Len r = 32 ∧ r.all isHexDigit = true then hyphenate r else r) =
    some (r.map asciiToLower)
  rw [if_pos ⟨hu, hall⟩]
  unfold Uuid.tryParse
  rw [if_neg (by rw [utf8Len_hyphenate h32 hall]; intro hcon; omega),
    if_pos (utf8Len_hyphenate h32 hall), splitUuid_hyphenate h32 hall]
  rfl

theorem utf8Len_shape {a b c d e : List Char} (ha : a.length = 8) (hb : b.length = 4)
    (hc : c.length = 4) (hd : d.length = 4) (he : e.length = 12)
    (haall : a.all isHexDigit = true) (hball : b.all isHexDigit = true)
    (hcall : c.all isHexDigit = true) (hdall : d.all isHexDigit = true)
    (heall : e.all isHexDigit = true) :
    utf8Len (a ++ '-' :: (b ++ '-' :: (c ++ '-' :: (d ++ '-' :: e)))) = 36 := by
  have hh : ('-').utf8Size = 1 := by decide
  rw [utf8Len_append, utf8Len_cons, utf8Len_append, utf8Len_cons, utf8Len_append,
    utf8Len_cons, utf8Len_append, utf8Len_cons, hh, utf8Len_of_hex haall,
    utf8Len_of_hex hball, utf8Len_of_hex hcall, utf8Len_of_hex hdall, utf8Len_of_hex heall,
    ha, hb, hc, hd, he]

theorem tryParseAsUuid_hyph {a b c d e : List Char} (ha : a.length = 8) (hb : b.length = 4)
    (hc : c.length = 4) (hd : d.length = 4) (he : e.length = 12)
    (haall : a.all isHexDigit = true) (hball : b.all isHexDigit = true)
    (hcall : c.all isHexDigit = true) (hdall : d.all isHexDigit = true)
    (heall : e.all isHexDigit = true) :
    NotionPageId.try_parse_as_uuid (a ++ '-' :: (b ++ '-' :: (c ++ '-' :: (d ++ '-' :: e)))) =
      some ((a ++ b ++ c ++ d ++ e).map asciiToLower) := by
  have h36 := utf8Len_shape ha hb hc hd he haall hball hcall hdall heall
  have hno : ¬(utf8Len (a ++ '-' :: (b ++ '-' :: (c ++ '-' :: (d ++ '-' :: e)))) = 32 ∧
      (a ++ '-' :: (b ++ '-' :: (c ++ '-' :: (d ++ '-' :: e)))).all isHexDigit = true) := by
    intro hcon
    rw [h36] at hcon
    omega
  show Uuid.tryParse (if _ ∧ _ then _ else _) = _
  rw [if_neg hno]
  unfold Uuid.tryParse
  rw [if_neg hno, if_pos h36, splitUuid_of_shape ha hb hc hd he haall hball hcall hdall heall]
  rfl

theorem splitUuid_of_shapeOf {s r : List Char} (h : HyphShapeOf s r) :
    splitUuid s = some r := by
  obtain ⟨a, b, c, d, e, hs, hr, ha, hb, hc, hd, he, a1, a2, a3, a4, a5⟩ := h
  rw [hs, splitUuid_of_shape ha hb hc hd he a1 a2 a3 a4 a5, hr]

theorem shapeOf_of_splitUuid {s r : List Char} (h : splitUuid s = some r) :
    HyphShapeOf s r := by
  obtain ⟨a, b, c, d, e, hs, ha, hb, hc, hd, he, a1, a2, a3, a4, a5, hr⟩ :=
    splitUuid_shape_of_some h
  exact ⟨a, b, c, d, e, hs, hr, ha, hb, hc, hd, he, a1, a2, a3, a4, a5⟩

theorem HyphShapeOf_r_spec {s r : List Char} (h : HyphShapeOf s r) :
    r.length = 32 ∧ r.all isHexDigit = true := by
  obtain ⟨a, b, c, d, e, hs, hr, ha, hb, hc, hd, he, a1, a2, a3, a4, a5⟩ := h
  subst hr
  constructor
  · simp only [List.length_append]
    omega
  · simp only [List.all_append, a1, a2, a3, a4, a5, Bool.and_self]

theorem HyphShapeOf_utf8Len {s r : List Char} (h : HyphShapeOf s r) : utf8Len s = 36 := by
  obtain ⟨a, b, c, d, e, hs, hr, ha, hb, hc, hd, he, a1, a2, a3, a4, a5⟩ := h
  rw [hs]
  exact utf8Len_shape ha hb hc hd he a1 a2 a3 a4 a5

theorem filter_of_shapeOf {s r : List Char} (h : HyphShapeOf s r) :
    s.filter (fun c => c ≠ '-') = r := by
  obtain ⟨a, b, c, d, e, hs, hr, ha, hb, hc, hd, he, a1, a2, a3, a4, a5⟩ := h
  subst hs
  subst hr
  simp only [List.filter_append, List.filter_cons]
  rw [show (decide ¬('-' = '-')) = false by decide]
  simp only [Bool.false_eq_true, if_neg, if_false]
  rw [filter_hyphens_of_hex a1, filter_hyphens_of_hex a2, filter_hyphens_of_hex a3,
    filter_hyphens_of_hex a4, filter_hyphens_of_hex a5]
  simp [List.append_assoc]

theorem unbrace_sound {s mid : List Char} (h : unbrace s = some mid) :
    s = '{' :: (mid ++ ['}']) := by
  unfold unbrace at h
  split at h
  case h_2 => exact absurd h (by simp)
  case h_1 t =>
    split at h
    case isFalse => exact absurd h (by simp)
    case isTrue hlast =>
      injection h with h
      subst h
      have hne : t ≠ [] := by
        intro e
        rw [e] at hlast
        simp at hlast
      have h1 : t.dropLast ++ [t.getLast hne] = t := List.dropLast_append_getLast hne
      have h2 : t.getLast? = some (t.getLast hne) := List.getLast?_eq_getLast t hne
      rw [h2] at hlast
      injection hlast with hlast
      congr 1
      conv_lhs => rw [← h1]
      rw [hlast]

theorem unbrace_complete (core : List Char) :
    unbrace ('{' :: (core ++ ['}'])) = some core := by
  show (if (core ++ ['}']).getLast? = some '}' then some ((core ++ ['}']).dropLast)
    else none) = some core
  rw [if_pos (List.getLast?_concat core), List.dropLast_concat]

theorem stripUrn_sound {s rest : List Char} (h : stripUrn s = some rest) :
    s = ("urn:uuid:").toList ++ rest := by
  unfold stripUrn at h
  split at h
  case isTrue htake =>
    injection h with h
    subst h
    conv_lhs => rw [← List.take_append_drop 9 s]
    rw [htake]
  case isFalse => exact absurd h (by simp)

theorem stripUrn_complete (core : List Char) :
    stripUrn (("urn:uuid:").toList ++ core) = some core := by
  have hlen : (("urn:uuid:").toList).length = 9 := by decide
  have htake : List.take 9 (("urn:uuid:").toList ++ core) = ("urn:uuid:").toList := by
    rw [← hlen]
    exact List.take_left _ _
  have hdrop : List.drop 9 (("urn:uuid:").toList ++ core) = core := by
    rw [← hlen]
    exact List.drop_left _ _
  unfold stripUrn
  rw [if_pos htake, hdrop]

theorem tryParseAsUuid_braced {s r : List Char} (h : BracedShapeOf s r) :
    NotionPageId.try_parse_as_uuid s = some (r.map asciiToLower) := by
  obtain ⟨core, hs, hsh⟩ := h
  have h36 : utf8Len core = 36 := HyphShapeOf_utf8Len hsh
  have h38 : utf8Len s = 38 := by
    rw [hs, utf8Len_cons, utf8Len_append, h36, show ('{').utf8Size = 1 from by decide,
      show utf8Len ['}'] = 1 from by decide]
  have hno32 : ¬(utf8Len s = 32 ∧ s.all isHexDigit = true) := by
    intro hcon
    omega
  show Uuid.tryParse (if _ ∧ _ then _ else _) = _
  rw [if_neg hno32]
  unfold Uuid.tryParse
  rw [if_neg hno32, if_neg (by omega : ¬utf8Len s = 36), if_pos h38, hs,
    unbrace_complete core]
  simp only [splitUuid_of_shapeOf hsh, Option.map_some']

theorem tryParseAsUuid_some_cases {s v : List Char}
    (h : NotionPageId.try_parse_as_uuid s = some v) :
    (s.length = 32 ∧ s.all isHexDigit = true ∧ v = s.map asciiToLower) ∨
    (∃ r, HyphShapeOf s r ∧ v = r.map asciiToLower) ∨
    (∃ r, BracedShapeOf s r ∧ v = r.map asciiToLower) ∨
    (∃ r, UrnShapeOf s r ∧ v = r.map asciiToLower) := by
  by_cases h1 : utf8Len s = 32 ∧ s.all isHexDigit = true
  · left
    have hl : s.length = 32 := by
      rw [← utf8Len_of_hex h1.2]
      exact h1.1
    refine ⟨hl, h1.2, ?_⟩
    rw [tryParseAsUuid_bare hl h1.2] at h
    injection h with h
    exact h.symm
  · have hw : NotionPageId.try_parse_as_uuid s = Uuid.tryParse s := by
      show Uuid.tryParse (if _ ∧ _ then _ else _) = _
      rw [if_neg h1]
    rw [hw] at h
    unfold Uuid.tryParse at h
    rw [if_neg h1] at h
    split at h
    · cases hsu : splitUuid s with
      | none =>
        rw [hsu] at h
        exact absurd h (by simp)
      | some r =>
        rw [hsu] at h
        simp only [Option.map_some'] at h
        injection h with h
        exact Or.inr (Or.inl ⟨r, shapeOf_of_splitUuid hsu, h.symm⟩)
    · split at h
      · split at h
        next mid hub =>
          cases hsu : splitUuid mid with
          | none =>
            rw [hsu] at h
            exact absurd h (by simp)
          | some r =>
            rw [hsu] at h
            simp only [Option.map_some'] at h
            injection h with h
            exact Or.inr (Or.inr (Or.inl
              ⟨r, ⟨mid, unbrace_sound hub, shapeOf_of_splitUuid hsu⟩, h.symm⟩))
        next hub => exact absurd h (by simp)
      · split at h
        · split at h
          next rest hus =>
            cases hsu : splitUuid rest with
            | none =>
              rw [hsu] at h
              exact absurd h (by simp)
            | some r =>
              rw [hsu] at h
              simp only [Option.map_some'] at h
              injection h with h
              exact Or.inr (Or.inr (Or.inr
                ⟨r, ⟨rest, stripUrn_sound hus, shapeOf_of_splitUuid hsu⟩, h.symm⟩))
          next hus => exact absurd h (by simp)
        · exact absurd h (by simp)

theorem tryParseAsUuid_none_of_not_direct {s : List Char} (h : ¬ DirectUuidShape s) :
    NotionPageId.try_parse_as_uuid s = none := by
  cases htp : NotionPageId.try_parse_as_uuid s with
  | none => rfl
  | some v =>
    exfalso
    rcases tryParseAsUuid_some_cases htp with ⟨h1, h2, _⟩ | ⟨r, hr, _⟩ | ⟨r, hr, _⟩ |
      ⟨r, hr, _⟩
    · exact h (Or.inl ⟨h1, h2⟩)
    · exact h (Or.inr (Or.inl ⟨r, hr⟩))
    · exact h (Or.inr (Or.inr (Or.inl ⟨r, hr⟩)))
    · exact h (Or.inr (Or.inr (Or.inr ⟨r, hr⟩)))

theorem SegYields_spec {s r : List Char} (h : SegYields s r) :
    r.length = 32 ∧ r.all isHexDigit = true := by
  cases h with
  | bare r h1 h2 => exact ⟨h1, h2⟩
  | hyphenated a b c d e l1 l2 l3 l4 l5 a1 a2 a3 a4 a5 =>
    constructor
    · simp only [List.length_append]
      omega
    · simp only [List.all_append, a1, a2, a3, a4, a5, Bool.and_self]
  | suffixed seg t2 r hfil ht2 h2 h3 => exact ⟨h2, h3⟩

theorem SegYields_ne_nil {s r : List Char} (h : SegYields s r) : s ≠ [] := by
  cases h with
  | bare r h1 h2 =>
    intro e
    rw [e] at h1
    simp at h1
  | hyphenated a b c d e l1 l2 l3 l4 l5 =>
    intro hcon
    have := congrArg List.length hcon
    simp only [List.length_append, List.length_cons, List.length_nil] at this
    omega
  | suffixed seg t2 r hfil ht2 h2 h3 =>
    intro hcon
    rw [hcon, List.filter_nil] at hfil
    exact ht2 (List.append_eq_nil.mp hfil.symm).1

theorem extract_yields {s r : List Char} (h : SegYields s r) :
    NotionPageId.extract_id_from_segment s = some (.ok (r.map asciiToLower)) := by
  cases h with
  | bare r h1 h2 =>
    simp only [NotionPageId.extract_id_from_segment, tryParseAsUuid_bare h1 h2]
  | hyphenated a b c d e l1 l2 l3 l4 l5 a1 a2 a3 a4 a5 =>
    simp only [NotionPageId.extract_id_from_segment,
      tryParseAsUuid_hyph l1 l2 l3 l4 l5 a1 a2 a3 a4 a5]
  | suffixed sg t2 rr hfil ht2 h32 hall =>
    have hur : utf8Len r = 32 := by
      rw [utf8Len_of_hex hall]
      exact h32
    have hrne : r ≠ [] := by
      intro e
      rw [e] at h32
      simp at h32
    cases htp : NotionPageId.try_parse_as_uuid s with
    | some v =>
      have hv : v = r.map asciiToLower := by
        rcases tryParseAsUuid_some_cases htp with ⟨hl, hx, hveq⟩ | ⟨r2, hsh, hveq⟩ |
          ⟨r2, hsh, hveq⟩ | ⟨r2, hsh, hveq⟩
        · exfalso
          have hfeq : s.filter (fun c => c ≠ '-') = s := filter_hyphens_of_hex hx
          have hlen := congrArg List.length (hfeq.symm.trans hfil)
          rw [List.length_append, hl, h32] at hlen
          exact ht2 (List.length_eq_zero.mp (by omega))
        · exfalso
          have hr2 := HyphShapeOf_r_spec hsh
          have hfeq : s.filter (fun c => c ≠ '-') = r2 := filter_of_shapeOf hsh
          have hlen := congrArg List.length (hfeq.symm.trans hfil)
          rw [List.length_append, hr2.1, h32] at hlen
          exact ht2 (List.length_eq_zero.mp (by omega))
        · exfalso
          obtain ⟨core, hseq, hcsh⟩ := hsh
          have hfcore : core.filter (fun c => c ≠ '-') = r2 := filter_of_shapeOf hcsh
          have hfs : s.filter (fun c => c ≠ '-') = '{' :: (r2 ++ ['}']) := by
            rw [hseq, show ('{' :: (core ++ ['}'])) = (['{'] ++ (core ++ ['}'])) from rfl,
              List.filter_append, List.filter_append, hfcore,
              show (['{'] : List Char).filter (fun c => c ≠ '-') = ['{'] from by decide,
              show (['}'] : List Char).filter (fun c => c ≠ '-') = ['}'] from by decide]
            rfl
          have heq2 : t2 ++ r = '{' :: (r2 ++ ['}']) := hfil.symm.trans hfs
          have hgl : (t2 ++ r).getLast? = some '}' := by
            rw [heq2, show '{' :: (r2 ++ ['}']) = ('{' :: r2) ++ ['}'] from rfl]
            exact List.getLast?_concat _
          have hglr : r.getLast? = some '}' := by
            rw [← List.getLast?_append_of_ne_nil t2 hrne]
            exact hgl
          have hmem : '}' ∈ r := List.mem_of_mem_getLast? hglr
          rw [List.all_eq_true] at hall
          exact absurd (hall '}' hmem) (by decide)
        · obtain ⟨core, hseq, hcsh⟩ := hsh
          have hfcore : core.filter (fun c => c ≠ '-') = r2 := filter_of_shapeOf hcsh
          have hfs : s.filter (fun c => c ≠ '-') = ("urn:uuid:").toList ++ r2 := by
            rw [hseq, List.filter_append, hfcore,
              show (("urn:uuid:").toList).filter (fun c => c ≠ '-') = ("urn:uuid:").toList
                from by decide]
          have heq2 : t2 ++ r = ("urn:uuid:").toList ++ r2 := hfil.symm.trans hfs
          have hr2 := HyphShapeOf_r_spec hcsh
          have hlen2 : t2.length = (("urn:uuid:").toList).length := by
            have hl2 := congrArg List.length heq2
            rw [List.length_append, List.length_append, h32, hr2.1] at hl2
            rw [show ((("urn:uuid:").toList).length : Nat) = 9 from by decide] at hl2 ⊢
            omega
          rw [hveq, List.append_inj_right heq2 hlen2]
      simp only [NotionPageId.extract_id_from_segment, htp, hv]
    | none =>
      have hfpos : 0 < utf8Len t2 := by
        rcases Nat.eq_zero_or_pos (utf8Len t2) with hz | hp
        · exact absurd (utf8Len_eq_zero_iff.mp hz) ht2
        · exact hp
      have hclen : utf8Len (t2 ++ r) = utf8Len t2 + 32 := by
        rw [utf8Len_append, hur]
      simp only [NotionPageId.extract_id_from_segment, htp, hfil]
      rw [if_pos (by rw [hclen]; omega)]
      have harg : utf8Len (t2 ++ r) - 32 = utf8Len t2 := by
        rw [hclen]
        omega
      rw [harg]
      simp only [byteDrop_append, tryParseAsUuid_bare h32 hall]

theorem map_map_lower (r : List Char) :
    (r.map asciiToLower).map asciiToLower = r.map asciiToLower := by
  rw [List.map_map, show asciiToLower ∘ asciiToLower = asciiToLower from
    funext asciiToLower_idem]

theorem hyphenate_map_lower (u : List Char) :
    (hyphenate u).map asciiToLower = hyphenate (u.map asciiToLower) := by
  unfold hyphenate
  simp only [List.map_append, List.map_cons, List.map_take, List.map_drop]
  rw [show asciiToLower '-' = '-' from by decide]

theorem map_lower_len_all {r : List Char} (h32 : r.length = 32)
    (hall : r.all isHexDigit = true) :
    (r.map asciiToLower).length = 32 ∧ (r.map asciiToLower).all isHexDigit = true := by
  constructor
  · rw [List.length_map]
    exact h32
  · rw [List.all_eq_true]
    intro c hc
    rw [List.mem_map] at hc
    obtain ⟨d, hd, rfl⟩ := hc
    rw [List.all_eq_true] at hall
    exact asciiToLower_hex (hall d hd)

theorem format_of_extracted {r : List Char} (h32 : r.length = 32)
    (hall : r.all isHexDigit = true) :
    NotionPageId.format_as_uuid (r.map asciiToLower) = .ok (canonicalOf r) := by
  obtain ⟨hlen, hall2⟩ := map_lower_len_all h32 hall
  have hu : utf8Len (r.map asciiToLower) = 32 := by
    rw [utf8Len_of_hex hall2]
    exact hlen
  simp only [NotionPageId.format_as_uuid]
  rw [if_neg (show ¬(utf8Len (r.map asciiToLower) ≠ 32) by rw [hu]; omega),
    tryParseAsUuid_bare hlen hall2]
  show Except.ok ((hyphenate ((r.map asciiToLower).map asciiToLower)).map asciiToLower) = _
  rw [map_map_lower, hyphenate_map_lower, map_map_lower]
  rfl

theorem new_none_of_segYields {s r : List Char} (h : SegYields s r) :
    NotionPageId.new none s = some (.ok (canonicalOf r)) := by
  obtain ⟨h32, hall⟩ := SegYields_spec h
  simp only [NotionPageId.new, NotionPageId.parse_page_id_from_possible_url,
    extract_yields h, format_of_extracted h32 hall]

theorem new_url_of_segYields {uv : UrlView} {input seg r : List Char}
    (hh : uv.host = some "www.notion.so") (hseg : uv.lastSegment = some seg)
    (h : SegYields seg r) :
    NotionPageId.new (some uv) input = some (.ok (canonicalOf r)) := by
  obtain ⟨h32, hall⟩ := SegYields_spec h
  have hne : seg.isEmpty = false := by
    cases hsg : seg with
    | nil => exact absurd hsg (SegYields_ne_nil h)
    | cons c t => rfl
  simp only [NotionPageId.new, NotionPageId.parse_page_id_from_possible_url, hh, hseg,
    if_pos, hne, Bool.false_eq_true, extract_yields h]
  simp only [if_neg (show ¬False from not_false), format_of_extracted h32 hall]

theorem filter_hyphenate {u : List Char} (h32 : u.length = 32)
    (hall : u.all isHexDigit = true) :
    (hyphenate u).filter (fun c => c ≠ '-') = u := by
  obtain ⟨l1, l2, l3, l4, l5⟩ := pieces_len h32
  have a1 := all_of_take hall 8
  have a2 := all_of_take (all_of_drop hall 8) 4
  have a3 := all_of_take (all_of_drop hall 12) 4
  have a4 := all_of_take (all_of_drop hall 16) 4
  have a5 := all_of_take (all_of_drop hall 20) 12
  show (u.take 8 ++ '-' :: ((u.drop 8).take 4 ++ '-' :: ((u.drop 12).take 4 ++
    '-' :: ((u.drop 16).take 4 ++ '-' :: (u.drop 20).take 12)))).filter
      (fun c => c ≠ '-') = u
  simp only [List.filter_append, List.filter_cons]
  rw [show (decide ¬('-' = '-')) = false by decide]
  simp only [Bool.false_eq_true, if_neg, if_false]
  rw [filter_hyphens_of_hex a1, filter_hyphens_of_hex a2, filter_hyphens_of_hex a3,
    filter_hyphens_of_hex a4, filter_hyphens_of_hex a5]
  exact take_drop_concat h32

theorem asRaw_canonicalOf {r : List Char} (h32 : r.length = 32)
    (hall : r.all isHexDigit = true) :
    NotionPageId.asRaw (canonicalOf r) = r.map asciiToLower := by
  obtain ⟨hlen, hall2⟩ := map_lower_len_all h32 hall
  unfold NotionPageId.asRaw canonicalOf
  exact filter_hyphenate hlen hall2

/-- Claim C4 — every accepted ExternalRef input (a bare 32-hex string, a
hyphenated UUID of any case, or a `www.notion.so` URL whose final non-empty
path segment carries such an identifier directly or as a suffix) parses to the
canonical lowercase hyphen-grouped 8-4-4-4-12 rendering of the carried
identifier; the raw accessor strips the hyphens back off, returning the 32
lowercase hex digits, and re-hyphenating the raw form recovers the canonical
form losslessly. -/
theorem c4_external_ref_canonicalisation :
    (∀ s r : List Char, SegYields s r →
      NotionPageId.new none s = some (.ok (canonicalOf r))) ∧
    (∀ (uv : UrlView) (input seg r : List Char), uv.host = some "www.notion.so" →
      uv.lastSegment = some seg → SegYields seg r →
      NotionPageId.new (some uv) input = some (.ok (canonicalOf r))) ∧
    (∀ r : List Char, r.length = 32 → r.all isHexDigit = true →
      NotionPageId.asRaw (canonicalOf r) = r.map asciiToLower ∧
      hyphenate (NotionPageId.asRaw (canonicalOf r)) = canonicalOf r) := by
  refine ⟨?_, ?_, ?_⟩
  · intro s r h
    exact new_none_of_segYields h
  · intro uv input seg r hh hseg h
    exact new_url_of_segYields hh hseg h
  · intro r h32 hall
    refine ⟨asRaw_canonicalOf h32 hall, ?_⟩
    rw [asRaw_canonicalOf h32 hall]
    rfl

/-- Claim C4 witness: the bare input, the notion.so URL segments
`page-a1b2…7890` (contiguous id after a title) and
`Title-a1b2c3d4-e5f6-7890-abcd-ef1234567890` (hyphen-interspersed id, found
after hyphen-stripping) all canonicalise to
`a1b2c3d4-e5f6-7890-abcd-ef1234567890`, whose raw form is the identifier
itself. -/
theorem c4_witness :
    NotionPageId.new none (("a1b2c3d4e5f67890abcdef1234567890").toList) =
      some (.ok (("a1b2c3d4-e5f6-7890-abcd-ef1234567890").toList)) ∧
    NotionPageId.new
      (some ⟨some "www.notion.so", some (("page-a1b2c3d4e5f67890abcdef1234567890").toList)⟩)
      (("u").toList) =
      some (.ok (("a1b2c3d4-e5f6-7890-abcd-ef1234567890").toList)) ∧
    NotionPageId.new
      (some ⟨some "www.notion.so",
        some (("Title-a1b2c3d4-e5f6-7890-abcd-ef1234567890").toList)⟩)
      (("u").toList) =
      some (.ok (("a1b2c3d4-e5f6-7890-abcd-ef1234567890").toList)) ∧
    NotionPageId.asRaw (("a1b2c3d4-e5f6-7890-abcd-ef1234567890").toList) =
      ("a1b2c3d4e5f67890abcdef1234567890").toList := by
  have hy : SegYields (("a1b2c3d4e5f67890abcdef1234567890").toList)
      (("a1b2c3d4e5f67890abcdef1234567890").toList) :=
    SegYields.bare _ (by decide) (by decide)
  have hy2 : SegYields (("page-a1b2c3d4e5f67890abcdef1234567890").toList)
      (("a1b2c3d4e5f67890abcdef1234567890").toList) :=
    SegYields.suffixed _ (("page").toList) _ (by decide) (by decide) (by decide) (by decide)
  have hy3 : SegYields (("Title-a1b2c3d4-e5f6-7890-abcd-ef1234567890").toList)
      (("a1b2c3d4e5f67890abcdef1234567890").toList) :=
    SegYields.suffixed _ (("Title").toList) _ (by decide) (by decide) (by decide) (by decide)
  refine ⟨?_, ?_, ?_, ?_⟩
  · have h := c4_external_ref_canonicalisation.1 _ _ hy
    rw [h]
    rfl
  · have h := c4_external_ref_canonicalisation.2.1
      ⟨some "www.notion.so", some (("page-a1b2c3d4e5f67890abcdef1234567890").toList)⟩
      (("u").toList) _ _ rfl rfl hy2
    rw [h]
    rfl
  · have h := c4_external_ref_canonicalisation.2.1
      ⟨some "www.notion.so",
        some (("Title-a1b2c3d4-e5f6-7890-abcd-ef1234567890").toList)⟩
      (("u").toList) _ _ rfl rfl hy3
    rw [h]
    rfl
  · have h := (c4_external_ref_canonicalisation.2.2
      (("a1b2c3d4e5f67890abcdef1234567890").toList) (by decide) (by decide)).1
    rw [show canonicalOf (("a1b2c3d4e5f67890abcdef1234567890").toList) =
      ("a1b2c3d4-e5f6-7890-abcd-ef1234567890").toList from rfl] at h
    rw [h]
    rfl

/-! ## Rejection lemmas for `NotionPageId` and claims C5, C6 -/

theorem utf8Len_of_ascii {s : List Char} (h : ∀ c ∈ s, c.utf8Size = 1) :
    utf8Len s = s.length := by
  induction s with
  | nil => rfl
  | cons c t ih =>
    rw [utf8Len_cons, h c (List.mem_cons_self c t), List.length_cons,
      ih (fun d hd => h d (List.mem_cons_of_mem c hd))]
    omega

theorem shape_length {s a b c d e : List Char}
    (hs : s = a ++ '-' :: (b ++ '-' :: (c ++ '-' :: (d ++ '-' :: e))))
    (ha : a.length = 8) (hb : b.length = 4) (hc : c.length = 4) (hd : d.length = 4)
    (he : e.length = 12) : s.length = 36 := by
  have := congrArg List.length hs
  simp only [List.length_append, List.length_cons] at this
  omega

theorem splitUuid_some_length {s r : List Char} (h : splitUuid s = some r) :
    s.length = 36 := by
  obtain ⟨a, b, c, d, e, hs, ha, hb, hc, hd, he, _⟩ := splitUuid_shape_of_some h
  exact shape_length hs ha hb hc hd he

theorem HyphShapeOf_s_length {s r : List Char} (h : HyphShapeOf s r) : s.length = 36 := by
  obtain ⟨a, b, c, d, e, hs, hr, ha, hb, hc, hd, he, _⟩ := h
  exact shape_length hs ha hb hc hd he

theorem BracedShapeOf_length {s r : List Char} (h : BracedShapeOf s r) : s.length = 38 := by
  obtain ⟨core, hs, hsh⟩ := h
  have hc := HyphShapeOf_s_length hsh
  rw [hs]
  simp only [List.length_cons, List.length_append, List.length_nil]
  omega

theorem UrnShapeOf_length {s r : List Char} (h : UrnShapeOf s r) : s.length = 45 := by
  obtain ⟨core, hs, hsh⟩ := h
  have hc := HyphShapeOf_s_length hsh
  rw [hs, List.length_append, show ((("urn:uuid:").toList).length : Nat) = 9 from by decide]
  omega

theorem extract_invalidId {s : List Char} (hascii : ∀ c ∈ s, c.utf8Size = 1)
    (hno : ¬ ExtractableSpec s) :
    NotionPageId.extract_id_from_segment s = some (.error (.invalidId s)) := by
  have hlen : utf8Len s = s.length := utf8Len_of_ascii hascii
  have htp : NotionPageId.try_parse_as_uuid s = none :=
    tryParseAsUuid_none_of_not_direct (fun hd => hno (Or.inl hd))
  have hcascii : ∀ c ∈ s.filter (fun c => c ≠ '-'), c.utf8Size = 1 := fun c hc =>
    hascii c (List.mem_of_mem_filter hc)
  have hclen : utf8Len (s.filter (fun c => c ≠ '-')) =
      (s.filter (fun c => c ≠ '-')).length := utf8Len_of_ascii hcascii
  simp only [NotionPageId.extract_id_from_segment, htp]
  by_cases hgt : (s.filter (fun c => c ≠ '-')).length > 32
  · rw [if_pos (by rw [hclen]; omega)]
    have hbd : byteDrop (s.filter (fun c => c ≠ '-'))
        (utf8Len (s.filter (fun c => c ≠ '-')) - 32) =
        some ((s.filter (fun c => c ≠ '-')).drop
          ((s.filter (fun c => c ≠ '-')).length - 32)) := by
      rw [hclen]
      exact byteDrop_ascii hcascii (by omega)
    rw [hbd]
    have hsufflen : ((s.filter (fun c => c ≠ '-')).drop
        ((s.filter (fun c => c ≠ '-')).length - 32)).length = 32 := by
      rw [List.length_drop]
      omega
    have hsuffhex : ((s.filter (fun c => c ≠ '-')).drop
        ((s.filter (fun c => c ≠ '-')).length - 32)).all isHexDigit = false := by
      by_contra hcon
      rw [Bool.not_eq_false] at hcon
      exact hno (Or.inr ⟨hgt, hcon⟩)
    have htp2 : NotionPageId.try_parse_as_uuid ((s.filter (fun c => c ≠ '-')).drop
        ((s.filter (fun c => c ≠ '-')).length - 32)) = none := by
      apply tryParseAsUuid_none_of_not_direct
      intro hd
      rcases hd with ⟨_, hx⟩ | ⟨r2, hr2⟩ | ⟨r2, hr2⟩ | ⟨r2, hr2⟩
      · rw [hx] at hsuffhex
        exact absurd hsuffhex (by simp)
      · have := HyphShapeOf_s_length hr2
        omega
      · have := BracedShapeOf_length hr2
        omega
      · have := UrnShapeOf_length hr2
        omega
    simp only [htp2]
  · rw [if_neg (by rw [hclen]; omega)]

/-- Claim C5 counterexample: on the provider-host URL `https://www.notion.so/`
(host correct, no non-empty path segment — `lastSegment` is the empty
segment), `NotionPageId::new` fails with `MissingPageId`, not with the
`InvalidId` error the claim promises for every non-URL-rejected input without
an extractable identifier; and the braced GUID
`\x7ba1b2c3d4-e5f6-7890-abcd-ef1234567890\x7d` — a shape outside the claim's
enumeration of extractable inputs — is accepted (the uuid dependency's
`try_parse` also reads braced and URN forms) rather than rejected with
`InvalidId`. -/
theorem c5_counterexample :
    (NotionPageId.new (some ⟨some "www.notion.so", some []⟩)
      (("https://www.notion.so/").toList) =
      some (.error (.missingPageId (("https://www.notion.so/").toList))) ∧
    NotionPageIdError.missingPageId (("https://www.notion.so/").toList) ≠
      NotionPageIdError.invalidId (("https://www.notion.so/").toList)) ∧
    NotionPageId.new none
      ('{' :: ((("a1b2c3d4-e5f6-7890-abcd-ef1234567890").toList) ++ ['}'])) =
      some (.ok (("a1b2c3d4-e5f6-7890-abcd-ef1234567890").toList)) := by
  refine ⟨⟨?_, ?_⟩, ?_⟩
  · rfl
  · decide
  · rfl

/-- Claim C5 as amended — an absolute URL whose host is not exactly
`www.notion.so` fails with the bad-format error whatever its path; a
provider-host URL without a non-empty final path segment fails with the
missing-id error; and an input (or a provider-host URL's final segment) made of
single-byte characters from which no 32-hex identifier can be extracted — in
any shape the uuid dependency parses directly (simple, hyphenated, braced, or
URN), or as a 32-character suffix of its hyphen-stripped form — fails with
`InvalidId`; a braced GUID in particular is accepted, not rejected.  (The
original claim said every non-URL-rejected input without an extractable
identifier fails with `InvalidId`; the segmentless provider URL instead fails
with `MissingPageId`, the braced and URN dependency formats succeed, and an
input whose hyphen-stripped form splits a multi-byte character at the 32-byte
suffix boundary panics — see C6.) -/
theorem c5_amended_rejection_cases :
    (∀ (uv : UrlView) (input : List Char), uv.host ≠ some "www.notion.so" →
      NotionPageId.new (some uv) input = some (.error (.invalidFormat input))) ∧
    (∀ (uv : UrlView) (input : List Char), uv.host = some "www.notion.so" →
      (uv.lastSegment = none ∨ uv.lastSegment = some []) →
      NotionPageId.new (some uv) input = some (.error (.missingPageId input))) ∧
    (∀ s : List Char, (∀ c ∈ s, c.utf8Size = 1) → ¬ ExtractableSpec s →
      NotionPageId.new none s = some (.error (.invalidId s))) ∧
    (∀ (uv : UrlView) (input seg : List Char), uv.host = some "www.notion.so" →
      uv.lastSegment = some seg → seg ≠ [] → (∀ c ∈ seg, c.utf8Size = 1) →
      ¬ ExtractableSpec seg →
      NotionPageId.new (some uv) input = some (.error (.invalidId seg))) ∧
    (∀ core r : List Char, HyphShapeOf core r →
      NotionPageId.new none ('{' :: (core ++ ['}'])) = some (.ok (canonicalOf r))) := by
  refine ⟨?_, ?_, ?_, ?_, ?_⟩
  · intro uv input hh
    simp only [NotionPageId.new, NotionPageId.parse_page_id_from_possible_url, if_neg hh]
  · intro uv input hh hseg
    rcases hseg with hseg | hseg <;>
      simp only [NotionPageId.new, NotionPageId.parse_page_id_from_possible_url, hh,
        if_pos, hseg, List.isEmpty_nil, if_true]
  · intro s hascii hno
    simp only [NotionPageId.new, NotionPageId.parse_page_id_from_possible_url,
      extract_invalidId hascii hno]
  · intro uv input seg hh hseg hne hascii hno
    have hemp : seg.isEmpty = false := by
      cases hsg : seg with
      | nil => exact absurd hsg hne
      | cons c t => rfl
    simp only [NotionPageId.new, NotionPageId.parse_page_id_from_possible_url, hh, hseg,
      if_pos, hemp, Bool.false_eq_true]
    simp only [if_neg (show ¬False from not_false), extract_invalidId hascii hno]
  · intro core r hsh
    obtain ⟨h32, hall⟩ := HyphShapeOf_r_spec hsh
    have htp := tryParseAsUuid_braced (⟨core, rfl, hsh⟩ :
      BracedShapeOf ('{' :: (core ++ ['}'])) r)
    simp only [NotionPageId.new, NotionPageId.parse_page_id_from_possible_url,
      NotionPageId.extract_id_from_segment, htp, format_of_extracted h32 hall]

theorem not_extractable_short {s : List Char} (h : s.length < 32)
    (h2 : (s.filter (fun c => c ≠ '-')).length ≤ 32) : ¬ ExtractableSpec s := by
  intro hcon
  cases hcon with
  | inl hd =>
    rcases hd with ⟨h32, _⟩ | ⟨r2, hr2⟩ | ⟨r2, hr2⟩ | ⟨r2, hr2⟩
    · omega
    · have := HyphShapeOf_s_length hr2
      omega
    · have := BracedShapeOf_length hr2
      omega
    · have := UrnShapeOf_length hr2
      omega
  | inr hsuf => exact absurd hsuf.1 (by omega)

/-- Claim C5 witness: the wrong-host URL `https://example.com/…` is rejected
with the bad-format error, the bare input `not-a-valid-uuid-at-all` and the
provider-host URL segment `some-page` are rejected with `InvalidId`, and the
braced GUID `\x7ba1b2c3d4-e5f6-7890-abcd-ef1234567890\x7d` is accepted. -/
theorem c5_witness :
    NotionPageId.new
      (some ⟨some "example.com", some (("a1b2c3d4e5f67890abcdef1234567890").toList)⟩)
      (("https://example.com/a1b2c3d4e5f67890abcdef1234567890").toList) =
      some (.error (.invalidFormat
        (("https://example.com/a1b2c3d4e5f67890abcdef1234567890").toList))) ∧
    NotionPageId.new none (("not-a-valid-uuid-at-all").toList) =
      some (.error (.invalidId (("not-a-valid-uuid-at-all").toList))) ∧
    NotionPageId.new (some ⟨some "www.notion.so", some (("some-page").toList)⟩)
      (("u").toList) = some (.error (.invalidId (("some-page").toList))) ∧
    NotionPageId.new none
      ('{' :: ((("a1b2c3d4-e5f6-7890-abcd-ef1234567890").toList) ++ ['}'])) =
      some (.ok (canonicalOf (("a1b2c3d4e5f67890abcdef1234567890").toList))) := by
  refine ⟨?_, ?_, ?_, ?_⟩
  · exact c5_amended_rejection_cases.1 _ _ (by decide)
  · exact c5_amended_rejection_cases.2.2.1 _ (by decide)
      (not_extractable_short (by decide) (by decide))
  · exact c5_amended_rejection_cases.2.2.2.1 _ _ (("some-page").toList) rfl rfl (by decide)
      (by decide) (not_extractable_short (by decide) (by decide))
  · exact c5_amended_rejection_cases.2.2.2.2
      (("a1b2c3d4-e5f6-7890-abcd-ef1234567890").toList)
      (("a1b2c3d4e5f67890abcdef1234567890").toList)
      ⟨("a1b2c3d4").toList, ("e5f6").toList, ("7890").toList, ("abcd").toList,
        ("ef1234567890").toList, by decide, by decide, by decide, by decide, by decide,
        by decide, by decide, by decide, by decide, by decide, by decide, by decide⟩

/-- Claim C6 evaluation at the failing input: on the input `aé` followed by 31
zeros — no extractable identifier, hyphen-stripped byte length 34 — the
ExternalRef parser reaches `&cleaned[cleaned.len() - 32..]` with byte index 2,
which falls inside the two-byte character `é`, and the process panics instead
of returning a typed error (`none` is this embedding's panic value). -/
theorem c6_panic_at_multibyte_boundary :
    NotionPageId.new none ('a' :: 'é' :: List.replicate 31 '0') = none := rfl

/-! ## Relation-validator lemmas and claim C10 -/

/-- Claim C10 — the relation validator fails with the missing-field error when
the named property is absent from the first schema; with the wrong-field-type
error when it is present but not a relation; and with the wrong-target error,
naming both the expected and the actual target id, when the relation points at
a different database than the expected counterpart.  A first-direction failure
is the whole validation's result, whatever the second schema holds (the
reverse-direction check runs only after the first succeeds), and the
validation succeeds exactly when both directions pass. -/
theorem c10_relation_validator_cases :
    (∀ (sa : Schema) (rb : Option Schema) (aId bId : List Char) (fa fb : String),
      List.lookup fa sa = none →
      validate_notion_databases (some sa) rb aId bId fa fb =
        some (.error (.missingField fa))) ∧
    (∀ (sa : Schema) (rb : Option Schema) (aId bId : List Char) (fa fb : String),
      List.lookup fa sa = some .other →
      validate_notion_databases (some sa) rb aId bId fa fb =
        some (.error (.wrongFieldType fa))) ∧
    (∀ (sa : Schema) (rb : Option Schema) (aId bId actual : List Char) (fa fb : String),
      List.lookup fa sa = some (.relation (some actual)) → actual ≠ bId →
      validate_notion_databases (some sa) rb aId bId fa fb =
        some (.error (.wrongTarget fa bId actual))) ∧
    (∀ (ra rb rb2 : Option Schema) (aId bId : List Char) (fa fb : String)
      (e : RelationErr), validate_database_relation ra aId fa bId = some (.error e) →
      validate_notion_databases ra rb aId bId fa fb = some (.error e) ∧
      validate_notion_databases ra rb aId bId fa fb =
        validate_notion_databases ra rb2 aId bId fa fb) ∧
    (∀ (ra rb : Option Schema) (aId bId : List Char) (fa fb : String),
      validate_notion_databases ra rb aId bId fa fb = some (.ok ()) ↔
        (validate_database_relation ra aId fa bId = some (.ok ()) ∧
          validate_database_relation rb bId fb aId = some (.ok ()))) := by
  refine ⟨?_, ?_, ?_, ?_, ?_⟩
  · intro sa rb aId bId fa fb hl
    simp only [validate_notion_databases, validate_database_relation, hl]
  · intro sa rb aId bId fa fb hl
    simp only [validate_notion_databases, validate_database_relation, hl]
  · intro sa rb aId bId actual fa fb hl hne
    simp only [validate_notion_databases, validate_database_relation, hl, if_pos hne]
  · intro ra rb rb2 aId bId fa fb e he
    constructor <;> simp only [validate_notion_databases, he]
  · intro ra rb aId bId fa fb
    constructor
    · intro h
      cases h1 : validate_database_relation ra aId fa bId with
      | none =>
        rw [validate_notion_databases, h1] at h
        exact absurd h (by simp)
      | some x =>
        cases x with
        | error e =>
          rw [validate_notion_databases, h1] at h
          simp only [] at h
          exact absurd h (by simp)
        | ok u =>
          cases u
          rw [validate_notion_databases, h1] at h
          exact ⟨rfl, h⟩
    · intro ⟨h1, h2⟩
      rw [validate_notion_databases, h1]
      exact h2

/-- Claim C10 witness: the four failure shapes and the success shape at
concrete schemas — a schema without the field, one with a non-relation field,
one pointing at the wrong target, and a correctly linked pair. -/
theorem c10_witness :
    validate_notion_databases (some []) (some []) (("A").toList) (("B").toList)
      "rel" "rel2" = some (.error (.missingField "rel")) ∧
    validate_notion_databases (some [("rel", .other)]) (some []) (("A").toList)
      (("B").toList) "rel" "rel2" = some (.error (.wrongFieldType "rel")) ∧
    validate_notion_databases (some [("rel", .relation (some (("X").toList)))]) (some [])
      (("A").toList) (("B").toList) "rel" "rel2" =
      some (.error (.wrongTarget "rel" (("B").toList) (("X").toList))) ∧
    validate_notion_databases (some [("rel", .relation (some (("B").toList)))])
      (some [("rel2", .relation (some (("A").toList)))]) (("A").toList) (("B").toList)
      "rel" "rel2" = some (.ok ()) := by
  refine ⟨?_, ?_, ?_, ?_⟩
  · exact c10_relation_validator_cases.1 [] (some []) _ _ "rel" "rel2" rfl
  · exact c10_relation_validator_cases.2.1 [("rel", .other)] (some []) _ _ "rel" "rel2" rfl
  · exact c10_relation_validator_cases.2.2.1 [("rel", .relation (some (("X").toList)))]
      (some []) (("A").toList) (("B").toList) (("X").toList) "rel" "rel2" rfl (by decide)
  · exact (c10_relation_validator_cases.2.2.2.2 _ _ _ _ "rel" "rel2").mpr ⟨rfl, rfl⟩

end Twag
